import Mathlib

/-!
Verification of the fund-distribution / portfolio-accumulation scripts.

Modelling conventions (shallow embedding of the JavaScript sources):
* a JavaScript string is a `List Char` (`Str`);
* a JavaScript number is an exact rational `ℚ`; where `NaN` can arise it is
  modelled by `none` in `Option ℚ` (`jsNum`), with `NaN`-propagating operations;
* a JavaScript `Date` value is identified with its millisecond timeline value.
  Parsing of arbitrary date strings by `new Date(s)` is an environment
  facility, so functions that need it take a parameter `dk : Str → Int`
  modelling `s ↦ new Date(s).getTime()`; the constant start date
  `new Date('2024-12-30')` is likewise passed as a parameter `startKey`.
* fallible numeric parses return `Option ℚ`; JavaScript division by zero
  yields `Infinity`, which no claim exercises, and is modelled by `none`
  (for `jsNum`) respectively by total `ℚ` division (for plain rationals).
-/

abbrev Str := List Char

namespace JsStr

/-- Model of `s.split(sep)` for a one-character separator: splits on every
occurrence, keeping empty pieces; the empty string splits to `[""]`. -/
def splitOnChar (sep : Char) : Str → List Str
  | [] => [[]]
  | c :: rest =>
    let r := splitOnChar sep rest
    if c = sep then [] :: r
    else (c :: r.headD []) :: r.tail

/-- Model of the whitespace class removed by `String.prototype.trim`. -/
def isWs (c : Char) : Bool := c = ' ' || c = '\t' || c = '\n' || c = '\r'

/-- Model of `s.trim()`. -/
def trimStr (s : Str) : Str := ((s.dropWhile isWs).reverse.dropWhile isWs).reverse

/-- Model of `c.toLowerCase()` for a single ASCII character. -/
def toLowerChar (c : Char) : Char :=
  if 'A' ≤ c ∧ c ≤ 'Z' then Char.ofNat (c.toNat + 32) else c

/-- Model of `s.toLowerCase()` (ASCII). -/
def toLowerStr (s : Str) : Str := s.map toLowerChar

/-- `leadsWith needle hay` holds when `hay` starts with `needle`. -/
def leadsWith : Str → Str → Bool
  | [], _ => true
  | _ :: _, [] => false
  | a :: as, b :: bs => a = b && leadsWith as bs

/-- Model of `hay.includes(needle)`. -/
def containsSeq : Str → Str → Bool
  | [], needle => needle.isEmpty
  | h :: rest, needle => leadsWith needle (h :: rest) || containsSeq rest needle

/-- Model of `s.replace(c, '')`: removes the first occurrence of `c` only. -/
def replaceFirst (c : Char) : Str → Str
  | [] => []
  | x :: xs => if x = c then xs else x :: replaceFirst c xs

/-- Numeric value of a (nonempty, all-digit) decimal numeral; `none` otherwise.
Used to model the `Number` coercion applied to date components. -/
def parseNatDigits (s : Str) : Option Nat :=
  if s ≠ [] ∧ s.all (fun c => c.isDigit) then
    some (s.foldl (fun acc c => acc * 10 + (c.toNat - 48)) 0)
  else none

/-- Model of `parseFloat`: optional leading whitespace and sign, then the
longest numeric prefix `digits [. digits]`; `NaN` (here `none`) when no digit
is found. Exponents and other JavaScript niceties are not exercised by the
repository data and are not modelled. -/
def parseFloatQ (s : Str) : Option ℚ :=
  let s1 := s.dropWhile isWs
  let sgn : ℚ := if s1.headD ' ' = '-' then -1 else 1
  let s2 := if s1.headD ' ' = '-' ∨ s1.headD ' ' = '+' then s1.tail else s1
  let intPart := s2.takeWhile Char.isDigit
  let rest := s2.dropWhile Char.isDigit
  let fracPart := if rest.headD ' ' = '.' then rest.tail.takeWhile Char.isDigit else []
  if intPart = [] ∧ fracPart = [] then none
  else
    let iv : ℚ := (intPart.foldl (fun acc c => acc * 10 + (c.toNat - 48)) 0 : ℕ)
    let fv : ℚ := ((fracPart.foldl (fun acc c => acc * 10 + (c.toNat - 48)) 0 : ℕ) : ℚ) /
      (10 : ℚ) ^ fracPart.length
    some (sgn * (iv + fv))

end JsStr

/-- JavaScript numbers where `NaN` can arise: `none` is `NaN`. -/
abbrev jsNum := Option ℚ

namespace JsNum

def nAdd : jsNum → jsNum → jsNum
  | some a, some b => some (a + b)
  | _, _ => none

def nSub : jsNum → jsNum → jsNum
  | some a, some b => some (a - b)
  | _, _ => none

def nMul : jsNum → jsNum → jsNum
  | some a, some b => some (a * b)
  | _, _ => none

/-- Division; a zero denominator gives JavaScript `Infinity`, which is outside
the numeric model and is mapped to `none` like `NaN`. -/
def nDiv : jsNum → jsNum → jsNum
  | some a, some b => if b = 0 then none else some (a / b)
  | _, _ => none

end JsNum

/-- Stable insertion of `x` behind every element whose key is `≤ key x`. -/
def insSorted {α : Type} (key : α → Int) (x : α) : List α → List α
  | [] => [x]
  | y :: ys => if key y ≤ key x then y :: insSorted key x ys else x :: y :: ys

/-- Model of the JavaScript stable `Array.prototype.sort` with the numeric
comparator `(a, b) => key(a) - key(b)` (ascending). -/
def sortByKey {α : Type} (key : α → Int) (l : List α) : List α :=
  l.foldl (fun acc x => insSorted key x acc) []

/-- `nondecQ u l`: the chain `u :: l` of rationals is non-decreasing. -/
def nondecQ (u : ℚ) : List ℚ → Prop
  | [] => True
  | v :: vs => u ≤ v ∧ nondecQ v vs

/-- `nondecOpt u l`: every element of `l` is a real number (not `NaN`) and the
chain `u :: l` is non-decreasing. -/
def nondecOpt (u : ℚ) : List jsNum → Prop
  | [] => True
  | v :: vs => ∃ q, v = some q ∧ u ≤ q ∧ nondecOpt q vs

/-- Association-list read, model of `obj[key]` for a date-keyed object. -/
def assocGet {β : Type} (m : List (Str × β)) (k : Str) : Option β :=
  (m.find? (fun p => p.1 = k)).map (·.2)

/-- Association-list write, model of `obj[key] = v`: overwrites in place if the
key exists (JavaScript objects keep first-insertion order), appends otherwise. -/
def assocSet {β : Type} (m : List (Str × β)) (k : Str) (v : β) : List (Str × β) :=
  if (m.find? (fun p => p.1 = k)).isSome then
    m.map (fun p => if p.1 = k then (k, v) else p)
  else m ++ [(k, v)]

/-! ## Money-market accumulator (src/portfolio-calculator.js, calculateMMFPortfolio)

`allFundData.distributions?.[fundSymbol]` together with the
`!distributionData || !distributionData.rates || !rates.length` guard is
collapsed into an `Option (List MMFRate)` argument plus the emptiness test. -/

structure MMFRate where
  rate : Str
  date : Str
deriving DecidableEq

structure MMFDetail where
  date : Str
  rate : Str
  dailyRate : jsNum
  distributionAmount : jsNum
  runningUnits : jsNum
deriving DecidableEq

/-- Result object of `calculateMMFPortfolio`; the two constructors carry
exactly the fields the two `return` statements of the source build.  The
`toFixed` string formatting of the detail rows is not modelled; details carry
the numeric values being formatted. -/
inductive MMFResult where
  | err (initialValue currentValue totalReturn percentageReturn : ℚ) (msg : Str)
  | ok (initialUnits : ℚ) (currentUnits : jsNum) (initialValue : ℚ)
      (currentValue totalReturn percentageReturn : jsNum)
      (accumulationDetails : List MMFDetail)
deriving DecidableEq

def MMFResult.unitsOf : MMFResult → jsNum
  | .err _ _ _ _ _ => none
  | .ok _ cu _ _ _ _ _ => cu

def MMFResult.detailsOf : MMFResult → List MMFDetail
  | .err _ _ _ _ _ => []
  | .ok _ _ _ _ _ _ ds => ds

def noDistMsg : Str := (("No distribution data available")).data

namespace PortfolioCalc

open JsStr JsNum

/-- Loop body of the distribution loop in `calculateMMFPortfolio`
(src/portfolio-calculator.js lines 43-63):
`rateValue = parseFloat(rate.rate) / 100; dailyRate = rateValue / 365;
distributionAmount = currentUnits * dailyRate; currentUnits += distributionAmount`,
then one detail row is pushed.  Note the unguarded `parseFloat`: an
unparseable rate makes every quantity `NaN` (`none`). -/
def mmfStep (acc : jsNum × List MMFDetail) (r : MMFRate) : jsNum × List MMFDetail :=
  let rateValue : jsNum := (parseFloatQ r.rate).map (· / 100)
  let dailyRate : jsNum := rateValue.map (· / 365)
  let distributionAmount := nMul acc.1 dailyRate
  let currentUnits := nAdd acc.1 distributionAmount
  (currentUnits, acc.2 ++ [⟨r.date, r.rate, dailyRate, distributionAmount, currentUnits⟩])

/-- `calculateMMFPortfolio` (src/portfolio-calculator.js lines 10-80).
`dk` models `s ↦ new Date(s).getTime()`, `startKey` the start date
`new Date('2024-12-30')`.  NAV is the constant 1.00. -/
def calculateMMFPortfolio (dk : Str → Int) (startKey : Int)
    (distributionData : Option (List MMFRate)) (initialUnits : ℚ) : MMFResult :=
  match distributionData with
  | none => .err (initialUnits * 1) (initialUnits * 1) 0 0 noDistMsg
  | some rates =>
    if rates = [] then .err (initialUnits * 1) (initialUnits * 1) 0 0 noDistMsg
    else
      let recentRates := rates.filter (fun r => startKey ≤ dk r.date)
      let sortedRates := sortByKey (fun r => dk r.date) recentRates
      let acc := sortedRates.foldl mmfStep (some initialUnits, [])
      let initialValue := initialUnits * 1
      let currentValue := nMul acc.1 (some 1)
      let totalReturn := nSub currentValue (some initialValue)
      let percentageReturn := nMul (nDiv totalReturn (some initialValue)) (some 100)
      .ok initialUnits acc.1 initialValue currentValue totalReturn percentageReturn acc.2

end PortfolioCalc

namespace ParserVariant

open JsStr JsNum

/-- Loop body of the `calculateMMFPortfolio` duplicate in
src/fund-distribution-parser.js (lines 160-173): there
`rateValue = parseFloat(rate.rate)` and `dailyRate = rateValue` — the parsed
rate is used directly as the realized daily rate, with no `/100/365`. -/
def mmfStep (acc : jsNum × List MMFDetail) (r : MMFRate) : jsNum × List MMFDetail :=
  let rateValue : jsNum := parseFloatQ r.rate
  let dailyRate : jsNum := rateValue
  let distributionAmount := nMul acc.1 dailyRate
  let currentUnits := nAdd acc.1 distributionAmount
  (currentUnits, acc.2 ++ [⟨r.date, r.rate, dailyRate, distributionAmount, currentUnits⟩])

/-- `calculateMMFPortfolio` as duplicated in src/fund-distribution-parser.js
(lines 134-189); identical to the src/portfolio-calculator.js version except
for the rate interpretation in the loop body. -/
def calculateMMFPortfolio (dk : Str → Int) (startKey : Int)
    (distributionData : Option (List MMFRate)) (initialUnits : ℚ) : MMFResult :=
  match distributionData with
  | none => .err (initialUnits * 1) (initialUnits * 1) 0 0 noDistMsg
  | some rates =>
    if rates = [] then .err (initialUnits * 1) (initialUnits * 1) 0 0 noDistMsg
    else
      let recentRates := rates.filter (fun r => startKey ≤ dk r.date)
      let sortedRates := sortByKey (fun r => dk r.date) recentRates
      let acc := sortedRates.foldl mmfStep (some initialUnits, [])
      let initialValue := initialUnits * 1
      let currentValue := nMul acc.1 (some 1)
      let totalReturn := nSub currentValue (some initialValue)
      let percentageReturn := nMul (nDiv totalReturn (some initialValue)) (some 100)
      .ok initialUnits acc.1 initialValue currentValue totalReturn percentageReturn acc.2

end ParserVariant

/-! ## Mutual-fund portfolio calculator (src/portfolio-calculator.js,
calculateMutualFundPortfolio, lines 88-252)

The Yahoo-style NAV data (`navData.timestamp` and
`navData.indicators.quote[0].close`, two parallel arrays indexed together) is
modelled as one list of `(timestamp-seconds, close)` pairs.  `NavEntry.missing`
models `!allFundData[fundSymbol]`, `NavEntry.invalid` a present object failing
the `!navData.timestamp || !navData.indicators?.quote?.[0]?.close` guard. -/

structure MFDistData where
  headers : List Str
  distributions : List (List (Str × Str))

inductive NavEntry where
  | missing
  | invalid
  | valid (points : List (Int × ℚ))

/-- One pushed `distributionDetails` row.  The source formats `date` with
`toLocaleDateString()` and the numeric fields with `toFixed`; the model keeps
the raw date string (`none` for the 'Unknown' case) and the numeric values
being formatted. -/
structure MFDetail where
  date : Option Str
  distributionPerShare : ℚ
  totalDistribution : ℚ
  reinvestmentNAV : ℚ
  additionalShares : ℚ
  runningShares : ℚ
deriving DecidableEq

/-- Per-fund result object.  `err` carries only the error string, exactly like
the `{ error: ... }` objects of the source.  `nanResult` stands for the run on
a structurally valid but empty price array, where the source reads
`prices[prices.length - 1]` as `undefined` and floods the figures with `NaN`;
no claim exercises that run. -/
inductive FundResult where
  | err (msg : Str)
  | nanResult
  | ok (initialShares currentShares initialNAV currentNAV initialValue currentValue
      valueChangeFromNAV valueChangeFromDistributions totalReturn percentageReturn : ℚ)
      (distributionDetails : List MFDetail)
deriving DecidableEq

def FundResult.sharesOf : FundResult → Option ℚ
  | .ok _ cs _ _ _ _ _ _ _ _ _ => some cs
  | _ => none

def FundResult.detailsOf : FundResult → List MFDetail
  | .ok _ _ _ _ _ _ _ _ _ _ ds => ds
  | _ => []

/-- Stem of the source message `No data available for ${fundSymbol}`; the
interpolated fund symbol is dropped in the model (no claim depends on it). -/
def noDataMsg : Str := (("No data available")).data

/-- Stem of the source message `Invalid NAV data for ${fundSymbol}`. -/
def invalidNavMsg : Str := (("Invalid NAV data")).data

namespace PortfolioCalc

open JsStr JsNum

def dateWord : Str := (("date")).data

def exDivWord : Str := (("ex-div")).data

def distributionWord : Str := (("distribution")).data

def amountWord : Str := (("amount")).data

def dividendWord : Str := (("dividend")).data

/-- `headers.find(h => h.toLowerCase().includes('date') ||
h.toLowerCase().includes('ex-div'))`. -/
def findDateField (headers : List Str) : Option Str :=
  headers.find? (fun h => containsSeq (toLowerStr h) dateWord ||
    containsSeq (toLowerStr h) exDivWord)

/-- `headers.find(h => h.toLowerCase().includes('distribution') ||
h.toLowerCase().includes('amount') || h.toLowerCase().includes('dividend'))`. -/
def findAmountField (headers : List Str) : Option Str :=
  headers.find? (fun h => containsSeq (toLowerStr h) distributionWord ||
    containsSeq (toLowerStr h) amountWord || containsSeq (toLowerStr h) dividendWord)

/-- `dist[field]` on a parsed row object. -/
def rowGet (row : List (Str × Str)) (k : Str) : Option Str := assocGet row k

/-- `parseFloat(v) || 0` where `v` may be `undefined` (`none`). -/
def jsParseOr0 : Option Str → ℚ
  | none => 0
  | some v => (parseFloatQ v).getD 0

/-- The reinvestment-NAV search (src/portfolio-calculator.js lines 189-199):
default `currentNAV`, replaced by the price at the first index whose
`new Date(timestamps[i] * 1000)` is `≥` the distribution date. -/
def reinvestmentNAVOf (points : List (Int × ℚ)) (currentNAV : ℚ) (distKey : Int) : ℚ :=
  match points.find? (fun p => decide (distKey ≤ p.1 * 1000)) with
  | some p => p.2
  | none => currentNAV

/-- The initial-NAV search (lines 117-140): first point on/after the start
date, otherwise the latest point on/before it (scanning from the end). -/
def findInitialNAV (points : List (Int × ℚ)) (startKey : Int) : Option ℚ :=
  match points.find? (fun p => decide (startKey ≤ p.1 * 1000)) with
  | some p => some p.2
  | none => (points.reverse.find? (fun p => decide (p.1 * 1000 ≤ startKey))).map (·.2)

/-- The filter on distributions (lines 158-168): keep a row iff a date header
exists, the row has a truthy value there, and its date is on/after the start. -/
def mfFilter (dk : Str → Int) (startKey : Int) (headers : List Str)
    (rows : List (List (Str × Str))) : List (List (Str × Str)) :=
  rows.filter (fun row =>
    match findDateField headers with
    | none => false
    | some df =>
      match rowGet row df with
      | none => false
      | some v => v ≠ [] && startKey ≤ dk v)

/-- Loop body of the reinvestment loop (lines 179-214).  Faithfully transcribed:
`currentShares += additionalShares` happens BEFORE the detail row is pushed, so
the pushed `totalDistribution` is `distributionPerShare * currentShares` with
the updated share count. -/
def mfStep (dk : Str → Int) (points : List (Int × ℚ)) (currentNAV : ℚ)
    (headers : List Str) (af : Str)
    (acc : ℚ × List MFDetail) (row : List (Str × Str)) : ℚ × List MFDetail :=
  let distributionAmount := jsParseOr0 (rowGet row af)
  let distDateVal : Option Str := (findDateField headers).bind (fun df => rowGet row df)
  let reinvestmentNAV :=
    match distDateVal with
    | some v => reinvestmentNAVOf points currentNAV (dk v)
    | none => currentNAV
  let distributionPerShare := distributionAmount
  let additionalShares := distributionPerShare * acc.1 / reinvestmentNAV
  let currentShares := acc.1 + additionalShares
  (currentShares, acc.2 ++ [⟨distDateVal, distributionPerShare,
    distributionPerShare * currentShares, reinvestmentNAV, additionalShares, currentShares⟩])

/-- The per-fund body of `calculateMutualFundPortfolio` (lines 95-241). -/
def processFund (dk : Str → Int) (startKey : Int) (nav : NavEntry)
    (distributionData : Option MFDistData) (initialShares : ℚ) : FundResult :=
  match nav with
  | .missing => .err noDataMsg
  | .invalid => .err invalidNavMsg
  | .valid points =>
    match findInitialNAV points startKey, points.getLast? with
    | some initialNAV, some lastPt =>
      let currentNAV := lastPt.2
      let acc : ℚ × List MFDetail :=
        match distributionData with
        | none => (initialShares, [])
        | some dd =>
          if dd.distributions = [] then (initialShares, [])
          else
            let filtered := mfFilter dk startKey dd.headers dd.distributions
            match findAmountField dd.headers with
            | none => (initialShares, [])
            | some af => filtered.foldl (mfStep dk points currentNAV dd.headers af)
                (initialShares, [])
      let currentShares := acc.1
      let currentValue := currentShares * currentNAV
      let initialValue := initialShares * initialNAV
      .ok initialShares currentShares initialNAV currentNAV initialValue currentValue
        (initialShares * currentNAV - initialShares * initialNAV)
        (currentValue - initialShares * currentNAV)
        (currentValue - initialValue)
        ((currentValue - initialValue) / initialValue * 100)
        acc.2
    | _, _ => .nanResult

/-- The fund-data object: NAV data under `allFundData[symbol]`, distribution
data under `allFundData.distributions[symbol]`. -/
structure AllFundData where
  nav : Str → NavEntry
  distributions : Str → Option MFDistData

/-- `calculateMutualFundPortfolio`: one result per holding, in holding order;
an error for one fund only skips to the next (`continue`). -/
def calculateMutualFundPortfolio (dk : Str → Int) (startKey : Int)
    (allFundData : AllFundData) (initialHoldings : List (Str × ℚ)) :
    List (Str × FundResult) :=
  initialHoldings.map (fun h =>
    (h.1, processFund dk startKey (allFundData.nav h.1) (allFundData.distributions h.1) h.2))

end PortfolioCalc

/-! ## Date normalisation and the date-keyed data layer
(src/fund-data-service.js, src/fund-data-processor.js) -/

/-- Rendering of a possibly-`undefined` piece inside a template literal:
JavaScript renders `undefined` as the string "undefined". -/
def tmplPiece : Option Str → Str
  | some s => s
  | none => (("undefined")).data

/-- One entry of the per-date mapping produced by the data layer
(`{date, NAV, distributions, detail}`); `detail` is the nested object,
modelled as an association list of numeric fields.  (In
src/fund-data-processor.js the nested object is called `distributionDetails`;
it plays the same structural role.) -/
structure FundEntry where
  date : Str
  NAV : ℚ
  distributions : ℚ
  detail : List (Str × ℚ)
deriving DecidableEq

namespace DataService

open JsStr

/-- `normalizeDate` (src/fund-data-service.js lines 55-72): split on '/' if
present else '-', prefix "20" to a two-character third part, re-join with '/'.
A missing part renders as "undefined" inside the template literal. -/
def normalizeDate (dateStr : Str) : Str :=
  if dateStr.contains '/' || dateStr.contains '-' then
    let separator : Char := if dateStr.contains '/' then '/' else '-'
    let parts := splitOnChar separator dateStr
    let parts2 :=
      match parts.get? 2 with
      | some p => if p.length = 2 then parts.set 2 ('2' :: '0' :: p) else parts
      | none => parts
    tmplPiece (parts2.get? 0) ++ '/' :: (tmplPiece (parts2.get? 1) ++ '/' :: tmplPiece (parts2.get? 2))
  else dateStr

/-- `parseToDate` (lines 79-83): normalize, split on '/', build
`new Date(year, month - 1, day)`.  The `Date` value is modelled by its
argument triple `(year, monthIndex, day)` after `Number` coercion of the
string components; a component that is not a plain decimal numeral makes the
date invalid (`none`). -/
def parseToDate (dateStr : Str) : Option (Int × Int × Int) :=
  let parts := splitOnChar '/' (normalizeDate dateStr)
  match (parts.get? 0).bind parseNatDigits, (parts.get? 1).bind parseNatDigits,
      (parts.get? 2).bind parseNatDigits with
  | some m, some d, some y => some ((y : Int), ((m : Int) - 1, (d : Int)))
  | _, _, _ => none

/-- Order-faithful model of `Date.prototype.getTime` on constructor arguments
`(year, monthIndex, day)` that lie in calendar range (`0 ≤ monthIndex < 12`,
`1 ≤ day ≤ 31`): within that range it is strictly monotone in the
lexicographic order of the triple, exactly as the real timestamp is. -/
def dateVal (t : Int × Int × Int) : Int := (t.1 * 12 + t.2.1) * 32 + t.2.2

def parseOr0 (s : Str) : ℚ := (parseFloatQ s).getD 0

def kRegular : Str := (("regularDividend")).data

def kSpecial : Str := (("specialDividend")).data

def kLong : Str := (("longTermGains")).data

def kShort : Str := (("shortTermGains")).data

def kDailyRate : Str := (("dailyRate")).data

/-- Body of the `dataLines.forEach` in `processMutualFundDistributions`
(src/fund-data-service.js lines 122-152): a row is stored iff it has at least
8 tab-separated fields; columns 0/3/4/5/6/7 are used, a leading '$' stripped
before parsing, unparseable numbers falling back to 0. -/
def processMFLine (acc : List (Str × FundEntry)) (line : Str) : List (Str × FundEntry) :=
  let parts := splitOnChar '\t' (trimStr line)
  if 8 ≤ parts.length then
    let recordDate := normalizeDate (parts.getD 0 [])
    let regularDividend := parseOr0 (replaceFirst '$' (parts.getD 3 []))
    let specialDividend := parseOr0 (replaceFirst '$' (parts.getD 4 []))
    let longTermGains := parseOr0 (replaceFirst '$' (parts.getD 5 []))
    let shortTermGains := parseOr0 (replaceFirst '$' (parts.getD 6 []))
    let reinvestNAV := parseOr0 (replaceFirst '$' (parts.getD 7 []))
    let totalDistributions := regularDividend + specialDividend + longTermGains + shortTermGains
    assocSet acc recordDate ⟨recordDate, reinvestNAV, totalDistributions,
      [(kRegular, regularDividend), (kSpecial, specialDividend),
       (kLong, longTermGains), (kShort, shortTermGains)]⟩
  else acc

/-- `processMutualFundDistributions` (lines 114-156): drop blank lines, skip
the header line, fold the data lines. -/
def processMutualFundDistributions (fileContent : Str) : List (Str × FundEntry) :=
  let lines := (splitOnChar '\n' fileContent).filter (fun l => trimStr l ≠ [])
  match lines with
  | [] => []
  | [_] => []
  | _ :: dataLines => dataLines.foldl processMFLine []

/-- `processMMFDistributions` (lines 163-192): two-field rows `(rate, date)`,
NAV pinned at 1.00, the parsed rate (0 on parse failure) stored as the
distribution. -/
def processMMFDistributions (fileContent : Str) : List (Str × FundEntry) :=
  let lines := (splitOnChar '\n' fileContent).filter (fun l => trimStr l ≠ [])
  match lines with
  | [] => []
  | [_] => []
  | _ :: dataLines =>
    dataLines.foldl (fun acc line =>
      let parts := splitOnChar '\t' (trimStr line)
      if 2 ≤ parts.length then
        let rate := parseOr0 (parts.getD 0 [])
        let date := normalizeDate (parts.getD 1 [])
        assocSet acc date ⟨date, 1, rate, [(kDailyRate, rate)]⟩
      else acc) []

end DataService

/-- Model of the object spread `{...a, ...b}` on numeric-field objects:
keys of `b` override those of `a` in place, new keys of `b` are appended. -/
def spreadAssoc (a b : List (Str × ℚ)) : List (Str × ℚ) :=
  a.map (fun p => match b.find? (fun q => q.1 = p.1) with
    | some q => (p.1, q.2)
    | none => p)
    ++ b.filter (fun q => (a.find? (fun p => p.1 = q.1)).isNone)

/-- One iteration of the `for (const date in distributionData)` loop shared by
both `mergeData` variants, parameterised by the entry-update body `upd`:
if the date already exists in the merged map the entry is updated by `upd`
(which keeps the existing `NAV`), otherwise the distribution entry is added. -/
def mergeStep (upd : FundEntry → FundEntry → FundEntry)
    (merged : List (Str × FundEntry)) (d : Str × FundEntry) : List (Str × FundEntry) :=
  if (merged.find? (fun p => p.1 = d.1)).isSome then
    merged.map (fun p => if p.1 = d.1 then (p.1, upd p.2 d.2) else p)
  else merged ++ [d]

def mergeAssoc (upd : FundEntry → FundEntry → FundEntry)
    (navData distributionData : List (Str × FundEntry)) : List (Str × FundEntry) :=
  distributionData.foldl (mergeStep upd) navData

/-- Update body of `mergeData` in src/fund-data-service.js (lines 292-315):
`merged.distributions = dist.distributions` and
`merged.detail = {...merged.detail, ...dist.detail}`; the `NAV` field of the
existing (NAV-series) entry is left untouched. -/
def mergeEntryService (ne de : FundEntry) : FundEntry :=
  { ne with distributions := de.distributions, detail := spreadAssoc ne.detail de.detail }

/-- `mergeData` of src/fund-data-service.js. -/
def mergeDataService (navData distributionData : List (Str × FundEntry)) :
    List (Str × FundEntry) :=
  mergeAssoc mergeEntryService navData distributionData

/-- Update body of `mergeData` in src/fund-data-processor.js (lines 303-319):
`merged.distributions = dist.distributions` and
`merged.distributionDetails = dist.distributionDetails`; again the existing
`NAV` is left untouched. -/
def mergeEntryProcessor (ne de : FundEntry) : FundEntry :=
  { ne with distributions := de.distributions, detail := de.detail }

/-- `mergeData` of src/fund-data-processor.js. -/
def mergeDataProcessor (navData distributionData : List (Str × FundEntry)) :
    List (Str × FundEntry) :=
  mergeAssoc mergeEntryProcessor navData distributionData

namespace DataProcessor

open JsStr

/-- `parseDate` (src/fund-data-processor.js lines 58-76): with '/' present,
"20"-prefix a two-character third part and re-join with '/'; otherwise with
'-' present, re-join the three parts with '/' in the SAME order (so a
YYYY-MM-DD input comes out as "YYYY/MM/DD", read downstream as month YYYY);
otherwise return unchanged.  (With '/' present and fewer than three parts the
source would throw on `parts[2].length`; that path is not exercised and is
modelled as leaving the list unchanged.) -/
def parseDate (dateStr : Str) : Str :=
  if dateStr.contains '/' then
    let parts := splitOnChar '/' dateStr
    let parts2 :=
      match parts.get? 2 with
      | some p => if p.length = 2 then parts.set 2 ('2' :: '0' :: p) else parts
      | none => parts
    List.intercalate ['/'] parts2
  else if dateStr.contains '-' then
    let parts := splitOnChar '-' dateStr
    tmplPiece (parts.get? 0) ++ '/' :: (tmplPiece (parts.get? 1) ++ '/' :: tmplPiece (parts.get? 2))
  else dateStr

/-- `toDateObject` (lines 83-86): `new Date(parseInt(parts[2]),
parseInt(parts[0]) - 1, parseInt(parts[1]))`, modelled like
`DataService.parseToDate` by the `(year, monthIndex, day)` triple. -/
def toDateObject (dateStr : Str) : Option (Int × Int × Int) :=
  let parts := splitOnChar '/' dateStr
  match (parts.get? 2).bind parseNatDigits, (parts.get? 0).bind parseNatDigits,
      (parts.get? 1).bind parseNatDigits with
  | some y, some m, some d => some ((y : Int), ((m : Int) - 1, (d : Int)))
  | _, _, _ => none

end DataProcessor

/-! ## Block parser (src/fund-distribution-parser.js, parseDistributionData,
lines 34-109) -/

def ancfxSym : Str := (("ANCFX")).data

def agthxSym : Str := (("AGTHX")).data

def afaxxSym : Str := (("AFAXX")).data

/-- Parser state: the loop locals `currentFund`, `isHeader`, `headers`
together with the `fundData` object being built. -/
structure PDState where
  currentFund : Option Str
  isHeader : Bool
  headers : List Str
  ancfxHeaders : List Str
  agthxHeaders : List Str
  ancfx : List (List (Str × Str))
  agthx : List (List (Str × Str))
  afaxx : List MMFRate
deriving DecidableEq

/-- `rowObj` built by `headers.forEach((h, i) => rowObj[h] = values[i])`,
modelled as the pairing of headers with values (read back with `assocGet`;
the repository headers are pairwise distinct, so first-match lookup agrees
with the JavaScript object). -/
def rowZip (headers values : List Str) : List (Str × Str) := headers.zip values

namespace ParserVariant

open JsStr

/-- One iteration of the line loop of `parseDistributionData`: skip blank
lines, switch fund on a symbol line, consume one header line after a symbol,
then accept a data row iff its tab-field count EQUALS the stored header count
(mutual-fund blocks) or equals 2 (the AFAXX block); any other row is skipped
and parsing continues. -/
def pdLine (st : PDState) (rawLine : Str) : PDState :=
  let line := trimStr rawLine
  if line = [] then st
  else if line = ancfxSym then { st with currentFund := some ancfxSym, isHeader := true }
  else if line = agthxSym then { st with currentFund := some agthxSym, isHeader := true }
  else if line = afaxxSym then { st with currentFund := some afaxxSym, isHeader := true }
  else if st.isHeader then
    let hs := splitOnChar '\t' line
    let st2 := { st with headers := hs, isHeader := false }
    if st.currentFund = some ancfxSym then { st2 with ancfxHeaders := hs }
    else if st.currentFund = some agthxSym then { st2 with agthxHeaders := hs }
    else st2
  else
    let values := splitOnChar '\t' line
    if st.currentFund = some ancfxSym then
      (if values.length = st.headers.length then
        { st with ancfx := st.ancfx ++ [rowZip st.headers values] }
      else st)
    else if st.currentFund = some agthxSym then
      (if values.length = st.headers.length then
        { st with agthx := st.agthx ++ [rowZip st.headers values] }
      else st)
    else if st.currentFund = some afaxxSym then
      (if values.length = 2 then
        { st with afaxx := st.afaxx ++ [⟨values.getD 0 [], values.getD 1 []⟩] }
      else st)
    else st

def pdInit : PDState := ⟨none, false, [], [], [], [], [], []⟩

/-- `parseDistributionData` (src/fund-distribution-parser.js lines 34-109). -/
def parseDistributionData (data : Str) : PDState :=
  (splitOnChar '\n' (trimStr data)).foldl pdLine pdInit

end ParserVariant

/-- Modelled from the spec (sections 4.4 and 7c), for comparison with the
code: the reinvestment NAV is the value at the first NAV date on/after the
distribution date; if none exists, the latest NAV point at or before the
distribution date; if still none, the most recent known NAV overall ("latest"
read on the chronologically ordered series the spec's FundSeries prescribes).
`none` only when the series is empty. -/
def specReinvestmentNAV (points : List (Int × ℚ)) (distKey : Int) : Option ℚ :=
  match points.find? (fun p => decide (distKey ≤ p.1 * 1000)) with
  | some p => some p.2
  | none =>
    match (points.filter (fun p => decide (p.1 * 1000 ≤ distKey))).getLast? with
    | some p => some p.2
    | none => (points.getLast?).map (·.2)

/-- `points.1 ≤ points.2 ≤ ...`: the NAV series is in chronological order. -/
def ascByDate : List (Int × ℚ) → Prop
  | [] => True
  | [_] => True
  | p :: q :: rest => p.1 ≤ q.1 ∧ ascByDate (q :: rest)

/-! ## Concrete instances used by witnesses and counterexamples -/

/-- A concrete date-key environment: date strings that are plain decimal
numerals are mapped to their value, anything else to 0. -/
def dk0 : Str → Int := fun s => ((JsStr.parseNatDigits s).getD 0 : Nat)

def hdrRecordDate : Str := (("Record Date")).data

def hdrDistribution : Str := (("Distribution")).data

def d9999 : Str := (("9999")).data

def one00 : Str := (("1.00")).data

def abcS : Str := (("abc")).data

def five00S : Str := (("5.00")).data

def c2row : List (Str × Str) := [(hdrRecordDate, d9999), (hdrDistribution, one00)]

def c5row : List (Str × Str) := [(hdrRecordDate, d9999), (hdrDistribution, abcS)]

/-! ## C3 -/

/-- C3: the reinvestment NAV the mutual-fund accumulator picks for a
distribution agrees with the spec rule (`specReinvestmentNAV`): the value at
the first NAV date on/after the distribution date, else the latest point at or
before it, else the most recent known NAV — for a chronologically ordered,
nonempty NAV series, where `lastPt.2` is the `currentNAV` the source passes
as the default. -/
theorem C3_reinvestment_nav_rule (points : List (Int × ℚ)) (distKey : Int)
    (lastPt : Int × ℚ) (hlast : points.getLast? = some lastPt)
    (_hasc : ascByDate points) :
    specReinvestmentNAV points distKey =
      some (PortfolioCalc.reinvestmentNAVOf points lastPt.2 distKey) := by
  unfold specReinvestmentNAV PortfolioCalc.reinvestmentNAVOf
  cases hf : points.find? (fun p => decide (distKey ≤ p.1 * 1000)) with
  | some p => simp
  | none =>
    have hall : ∀ p ∈ points, p.1 * 1000 ≤ distKey := by
      intro p hp
      have h := List.find?_eq_none.mp hf p hp
      simp at h
      omega
    have hfil : points.filter (fun p => decide (p.1 * 1000 ≤ distKey)) = points := by
      apply List.filter_eq_self.mpr
      intro p hp
      simpa using hall p hp
    simp [hfil, hlast]

theorem C3_witness :
    specReinvestmentNAV [(1, 10), (2, 20)] 3000 =
      some (PortfolioCalc.reinvestmentNAVOf [(1, 10), (2, 20)] 20 3000) :=
  C3_reinvestment_nav_rule [(1, 10), (2, 20)] 3000 (2, 20) (by simp)
    (by simp [ascByDate])

/-! ## C10 -/

/-- C10: for every fund computed without error, the two attribution figures
decompose the total return exactly: `valueChangeFromNAV +
valueChangeFromDistributions = totalReturn`, and the total return is
`currentValue - initialValue`. -/
theorem C10_attribution_decomposition (dk : Str → Int) (startKey : Int)
    (nav : NavEntry) (dd : Option MFDistData) (s0 : ℚ)
    (a cs inav cnav iv cv vn vd tr pr : ℚ) (det : List MFDetail)
    (h : PortfolioCalc.processFund dk startKey nav dd s0 =
      FundResult.ok a cs inav cnav iv cv vn vd tr pr det) :
    vn + vd = tr ∧ tr = cv - iv := by
  cases nav with
  | missing => simp [PortfolioCalc.processFund] at h
  | invalid => simp [PortfolioCalc.processFund] at h
  | valid points =>
    simp only [PortfolioCalc.processFund] at h
    cases h1 : PortfolioCalc.findInitialNAV points startKey with
    | none =>
      rw [h1] at h
      cases h2 : points.getLast? <;> rw [h2] at h <;> simp at h
    | some inav0 =>
      cases h2 : points.getLast? with
      | none => rw [h1, h2] at h; simp at h
      | some lp =>
        rw [h1, h2] at h
        simp only [FundResult.ok.injEq] at h
        obtain ⟨_, hcs, hinav, hcnav, hiv, hcv, hvn, hvd, htr, _, _⟩ := h
        subst hcs hinav hcnav hiv hcv hvn hvd htr
        constructor
        · ring
        · ring

theorem C10_witness :
    (200 : ℚ) + 0 = 200 ∧ (200 : ℚ) = 5200 - 5000 := by
  have h : PortfolioCalc.processFund dk0 0 (NavEntry.valid [(1, 50), (2, 52)]) none 100 =
      FundResult.ok 100 100 50 52 5000 5200 200 0 200 4 [] := by
    simp +decide [PortfolioCalc.processFund, PortfolioCalc.findInitialNAV]
    norm_num
  exact C10_attribution_decomposition dk0 0 (NavEntry.valid [(1, 50), (2, 52)]) none 100
    100 100 50 52 5000 5200 200 0 200 4 [] h

/-! ## C2 -/

/-- C2: at the failing input (one distribution of 1.00 per share on 100
shares, reinvested at NAV 49.5), the shares purchased are computed from the
share count BEFORE the distribution (`200/99 = 1 * 100 / (99/2)`), but the
emitted step records `totalDistribution` from the share count AFTER the
update (`10100/99 = 1 * (100 + 200/99)`), not the before-count value `100`. -/
theorem C2_recorded_total_uses_after_shares :
    (PortfolioCalc.processFund dk0 0 (NavEntry.valid [(10, 99/2)])
        (some ⟨[hdrRecordDate, hdrDistribution], [c2row]⟩) 100).detailsOf =
      [⟨some d9999, 1, 10100/99, 99/2, 200/99, 10100/99⟩] ∧
    (200 : ℚ)/99 = 1 * 100 / ((99 : ℚ)/2) ∧
    (10100 : ℚ)/99 = 1 * (100 + 200/99) ∧
    (10100 : ℚ)/99 ≠ 1 * 100 := by
  refine ⟨?_, by norm_num, by norm_num, by norm_num⟩
  simp +decide [PortfolioCalc.processFund, PortfolioCalc.findInitialNAV, PortfolioCalc.mfFilter,
    PortfolioCalc.mfStep, PortfolioCalc.findDateField, PortfolioCalc.findAmountField,
    PortfolioCalc.rowGet, PortfolioCalc.jsParseOr0, PortfolioCalc.reinvestmentNAVOf,
    PortfolioCalc.dateWord, PortfolioCalc.exDivWord, PortfolioCalc.distributionWord,
    FundResult.detailsOf, c2row, assocGet, dk0, JsStr.parseFloatQ, one00, d9999,
    hdrRecordDate, hdrDistribution]
  norm_num

/-! ## C5 -/

/-- C5: a money-market rate string that fails to parse poisons the running
unit count with `NaN` (`none`) in BOTH money-market accumulator variants
(`parseFloat` is unguarded there), instead of being treated as a zero
distribution; the mutual-fund variant, whose parse is guarded by `|| 0`,
leaves the share count unchanged as the claim demands. -/
theorem C5_unguarded_mmf_parse :
    (PortfolioCalc.calculateMMFPortfolio dk0 0 (some [⟨abcS, d9999⟩]) 1000).unitsOf = none ∧
    (PortfolioCalc.calculateMMFPortfolio dk0 0 (some [⟨abcS, d9999⟩]) 1000).unitsOf ≠ some 1000 ∧
    (ParserVariant.calculateMMFPortfolio dk0 0 (some [⟨abcS, d9999⟩]) 1000).unitsOf = none ∧
    (PortfolioCalc.processFund dk0 0 (NavEntry.valid [(10, 99/2)])
      (some ⟨[hdrRecordDate, hdrDistribution], [c5row]⟩) 100).sharesOf = some 100 := by
  refine ⟨?_, ?_, ?_, ?_⟩
  · simp +decide [PortfolioCalc.calculateMMFPortfolio, PortfolioCalc.mmfStep, sortByKey,
      insSorted, JsStr.parseFloatQ, JsNum.nMul, JsNum.nAdd, abcS, d9999, dk0,
      MMFResult.unitsOf]
  · simp +decide [PortfolioCalc.calculateMMFPortfolio, PortfolioCalc.mmfStep, sortByKey,
      insSorted, JsStr.parseFloatQ, JsNum.nMul, JsNum.nAdd, abcS, d9999, dk0,
      MMFResult.unitsOf]
  · simp +decide [ParserVariant.calculateMMFPortfolio, ParserVariant.mmfStep, sortByKey,
      insSorted, JsStr.parseFloatQ, JsNum.nMul, JsNum.nAdd, abcS, d9999, dk0,
      MMFResult.unitsOf]
  · simp +decide [PortfolioCalc.processFund, PortfolioCalc.findInitialNAV, PortfolioCalc.mfFilter,
      PortfolioCalc.mfStep, PortfolioCalc.findDateField, PortfolioCalc.findAmountField,
      PortfolioCalc.rowGet, PortfolioCalc.jsParseOr0, PortfolioCalc.reinvestmentNAVOf,
      PortfolioCalc.dateWord, PortfolioCalc.exDivWord, PortfolioCalc.distributionWord,
      FundResult.sharesOf, c5row, assocGet, dk0, JsStr.parseFloatQ, abcS, d9999,
      hdrRecordDate, hdrDistribution]

/-! ## C6 -/

/-- C6 counterexample: a mutual fund with a perfectly valid NAV series but NO
distribution data does not produce an error object with zero figures, as the
claim demands; the source computes a normal result with `totalReturn = 200`
and no error at all. -/
theorem C6_counterexample :
    PortfolioCalc.processFund dk0 0 (NavEntry.valid [(1, 50), (2, 52)]) none 100 =
      FundResult.ok 100 100 50 52 5000 5200 200 0 200 4 [] ∧
    (200 : ℚ) ≠ 0 := by
  constructor
  · simp +decide [PortfolioCalc.processFund, PortfolioCalc.findInitialNAV]
    norm_num
  · norm_num

/-! ## C1 -/

/-- C1 counterexample: the `calculateMMFPortfolio` duplicate in
src/fund-distribution-parser.js (cited by the claim) does NOT compute
`dailyRate = annualRatePercent / 100 / 365`: on the claim's own scenario
(initial units 1000, single entry with rate "5.00") it uses the parsed rate
5 directly as the daily rate and returns 6000 units, not
`1000 * (1 + 5/100/365)`. -/
theorem C1_counterexample :
    (ParserVariant.calculateMMFPortfolio dk0 0 (some [⟨five00S, d9999⟩]) 1000).unitsOf =
      some 6000 ∧
    (6000 : ℚ) ≠ 1000 * (1 + 5/100/365) := by
  constructor
  · simp +decide [ParserVariant.calculateMMFPortfolio, ParserVariant.mmfStep, sortByKey,
      insSorted, JsStr.parseFloatQ, JsNum.nMul, JsNum.nAdd, five00S, d9999, dk0,
      MMFResult.unitsOf]
    norm_num
  · norm_num

/-! ## C7 -/

def d0102 : Str := (("01/02/2025")).data

/-- C7 counterexample: for a date present in both the NAV series (NAV 52) and
the distribution records (reinvest NAV 49.5), both `mergeData` variants keep
the NAV-series value 52 — the distribution record NAV does NOT take
precedence as the claim states. -/
theorem C7_counterexample :
    mergeDataService [(d0102, ⟨d0102, 52, 0, []⟩)] [(d0102, ⟨d0102, 99/2, 1, [(DataService.kRegular, 1)]⟩)] =
      [(d0102, ⟨d0102, 52, 1, [(DataService.kRegular, 1)]⟩)] ∧
    mergeDataProcessor [(d0102, ⟨d0102, 52, 0, []⟩)] [(d0102, ⟨d0102, 99/2, 1, [(DataService.kRegular, 1)]⟩)] =
      [(d0102, ⟨d0102, 52, 1, [(DataService.kRegular, 1)]⟩)] ∧
    (52 : ℚ) ≠ 99/2 := by
  refine ⟨?_, ?_, by norm_num⟩
  · simp +decide [mergeDataService, mergeAssoc, mergeStep, mergeEntryService, spreadAssoc]
  · simp +decide [mergeDataProcessor, mergeAssoc, mergeStep, mergeEntryProcessor]

/-! ## C8 -/

def c8txt : Str := (("ANCFX\nA\tB\n1\t2\t3\nx\ty")).data

/-- C8 counterexample: in a block whose header declares 2 columns, a data line
with 3 tab-separated fields — which has "at least as many fields as the
header declared" — is NOT accepted by `parseDistributionData`; only the
later line with exactly 2 fields is, and parsing continues past the skipped
line. -/
theorem C8_counterexample :
    (ParserVariant.parseDistributionData c8txt).ancfx =
      [[((("A")).data, (("x")).data), ((("B")).data, (("y")).data)]] ∧
    (JsStr.splitOnChar '\t' (("1\t2\t3")).data).length = 3 ∧
    (ParserVariant.parseDistributionData c8txt).headers.length = 2 ∧
    (2 : Nat) ≤ 3 := by
  refine ⟨?_, by decide, ?_, by decide⟩
  · decide
  · decide

/-- C1 amended: in the src/portfolio-calculator.js accumulator the recurrence
is exactly `dailyRate = rate/100/365; distributionAmount = units * dailyRate;
units += distributionAmount`, so a run over parsed rates `qs` multiplies the
units by `∏ (1 + q/100/365)`; on the concrete scenario (1000 units, one
"5.00" entry) the full function returns `1000 * (1 + 5/100/365)` units.  (The
src/fund-distribution-parser.js duplicate instead uses the parsed rate as the
daily rate; see the counterexample.) -/
theorem C1_amended_rate_recurrence (rs : List MMFRate) (qs : List ℚ) (u0 : ℚ)
    (ds0 : List MMFDetail)
    (hparse : rs.map (fun r => JsStr.parseFloatQ r.rate) = qs.map some) :
    ((rs.foldl PortfolioCalc.mmfStep (some u0, ds0)).1 =
      some (u0 * (qs.map (fun q => 1 + q / 100 / 365)).prod)) ∧
    (PortfolioCalc.calculateMMFPortfolio dk0 0 (some [⟨five00S, d9999⟩]) 1000).unitsOf =
      some (1000 * (1 + 5/100/365)) := by
  constructor
  · induction rs generalizing qs u0 ds0 with
    | nil =>
      cases qs with
      | nil => simp
      | cons q qs' => simp at hparse
    | cons r rs ih =>
      cases qs with
      | nil => simp at hparse
      | cons q qs' =>
        simp only [List.map_cons, List.cons.injEq] at hparse
        obtain ⟨h1, h2⟩ := hparse
        have hstep : PortfolioCalc.mmfStep (some u0, ds0) r =
            (some (u0 + u0 * (q / 100 / 365)),
             ds0 ++ [⟨r.date, r.rate, some (q / 100 / 365), some (u0 * (q / 100 / 365)),
               some (u0 + u0 * (q / 100 / 365))⟩]) := by
          simp [PortfolioCalc.mmfStep, h1, JsNum.nMul, JsNum.nAdd]
        rw [List.foldl_cons, hstep, ih _ _ _ h2]
        congr 1
        simp only [List.map_cons, List.prod_cons]
        ring
  · simp +decide [PortfolioCalc.calculateMMFPortfolio, PortfolioCalc.mmfStep, sortByKey,
      insSorted, JsStr.parseFloatQ, JsNum.nMul, JsNum.nAdd, five00S, d9999, dk0,
      MMFResult.unitsOf]
    norm_num

theorem C1_witness :
    (([⟨five00S, d9999⟩] : List MMFRate).foldl PortfolioCalc.mmfStep (some 2, [])).1 =
      some (2 * (([(5 : ℚ)].map (fun q => 1 + q / 100 / 365)).prod)) :=
  (C1_amended_rate_recurrence [⟨five00S, d9999⟩] [5] 2 []
    (by simp +decide [JsStr.parseFloatQ, JsStr.isWs, five00S])).1

/-- C6 amended: the money-market variant with missing or empty distribution
data returns the error object with zero `totalReturn` and `percentageReturn`;
the mutual-fund variant returns a bare `{error}` object (with NO return
figures) for a missing fund or invalid NAV data, and an error for one fund
never prevents a sibling holding from being computed: every holding yields
its own independent `processFund` entry. -/
theorem C6_amended_error_paths (dk : Str → Int) (startKey : Int) (u0 s0 : ℚ)
    (dd : Option MFDistData) (afd : PortfolioCalc.AllFundData)
    (holdings : List (Str × ℚ)) (f : Str) (s : ℚ) (hmem : (f, s) ∈ holdings) :
    PortfolioCalc.calculateMMFPortfolio dk startKey none u0 =
      MMFResult.err (u0 * 1) (u0 * 1) 0 0 noDistMsg ∧
    PortfolioCalc.calculateMMFPortfolio dk startKey (some []) u0 =
      MMFResult.err (u0 * 1) (u0 * 1) 0 0 noDistMsg ∧
    PortfolioCalc.processFund dk startKey NavEntry.missing dd s0 = FundResult.err noDataMsg ∧
    PortfolioCalc.processFund dk startKey NavEntry.invalid dd s0 = FundResult.err invalidNavMsg ∧
    (f, PortfolioCalc.processFund dk startKey (afd.nav f) (afd.distributions f) s) ∈
      PortfolioCalc.calculateMutualFundPortfolio dk startKey afd holdings := by
  refine ⟨rfl, rfl, rfl, rfl, ?_⟩
  unfold PortfolioCalc.calculateMutualFundPortfolio
  exact List.mem_map.mpr ⟨(f, s), hmem, rfl⟩

def afd0 : PortfolioCalc.AllFundData :=
  ⟨fun _ => NavEntry.valid [(1, 50), (2, 52)], fun _ => none⟩

theorem C6_witness :
    PortfolioCalc.calculateMMFPortfolio dk0 0 none 1000 =
      MMFResult.err (1000 * 1) (1000 * 1) 0 0 noDistMsg ∧
    PortfolioCalc.calculateMMFPortfolio dk0 0 (some []) 1000 =
      MMFResult.err (1000 * 1) (1000 * 1) 0 0 noDistMsg ∧
    PortfolioCalc.processFund dk0 0 NavEntry.missing none 100 = FundResult.err noDataMsg ∧
    PortfolioCalc.processFund dk0 0 NavEntry.invalid none 100 = FundResult.err invalidNavMsg ∧
    (agthxSym, PortfolioCalc.processFund dk0 0 (afd0.nav agthxSym) (afd0.distributions agthxSym) 100) ∈
      PortfolioCalc.calculateMutualFundPortfolio dk0 0 afd0 [(agthxSym, 100)] :=
  C6_amended_error_paths dk0 0 1000 100 none afd0 [(agthxSym, 100)] agthxSym 100
    (by simp)

/-! ## C4 : monotone accumulation -/

/-- Folding a step function that only appends to the detail log decomposes
over any initial log. -/
theorem foldl_detail_split {α β γ : Type}
    (f : (γ × List β) → α → γ × List β)
    (hf : ∀ x ds a, (f (x, ds) a).1 = (f (x, []) a).1 ∧ (f (x, ds) a).2 = ds ++ (f (x, []) a).2)
    (l : List α) : ∀ (x : γ) (ds : List β),
      (l.foldl f (x, ds)).1 = (l.foldl f (x, [])).1 ∧
      (l.foldl f (x, ds)).2 = ds ++ (l.foldl f (x, [])).2 := by
  induction l with
  | nil => intro x ds; simp
  | cons a l ih =>
    intro x ds
    simp only [List.foldl_cons]
    obtain ⟨e1, e2⟩ := hf x ds a
    rcases hfa : f (x, []) a with ⟨y, es⟩
    rcases hfd : f (x, ds) a with ⟨y2, es2⟩
    rw [hfa] at e1 e2
    rw [hfd] at e1 e2
    simp only at e1 e2
    rw [e1, e2]
    have hA := ih y (ds ++ es)
    have hB := ih y es
    exact ⟨by rw [hA.1, hB.1], by rw [hA.2, hB.2, List.append_assoc]⟩

theorem mmfStep_split (x : jsNum) (ds : List MMFDetail) (a : MMFRate) :
    (PortfolioCalc.mmfStep (x, ds) a).1 = (PortfolioCalc.mmfStep (x, []) a).1 ∧
    (PortfolioCalc.mmfStep (x, ds) a).2 = ds ++ (PortfolioCalc.mmfStep (x, []) a).2 := by
  simp [PortfolioCalc.mmfStep]

theorem mmfStepRaw_split (x : jsNum) (ds : List MMFDetail) (a : MMFRate) :
    (ParserVariant.mmfStep (x, ds) a).1 = (ParserVariant.mmfStep (x, []) a).1 ∧
    (ParserVariant.mmfStep (x, ds) a).2 = ds ++ (ParserVariant.mmfStep (x, []) a).2 := by
  simp [ParserVariant.mmfStep]

theorem mem_insSorted {α : Type} (key : α → Int) (a x : α) :
    ∀ l : List α, x ∈ insSorted key a l → x = a ∨ x ∈ l := by
  intro l
  induction l with
  | nil => intro h; simp [insSorted] at h; exact Or.inl h
  | cons y ys ih =>
    intro h
    simp only [insSorted] at h
    by_cases hc : key y ≤ key a
    · rw [if_pos hc] at h
      rcases List.mem_cons.mp h with h1 | h2
      · exact Or.inr (List.mem_cons.mpr (Or.inl h1))
      · rcases ih h2 with h3 | h4
        · exact Or.inl h3
        · exact Or.inr (List.mem_cons.mpr (Or.inr h4))
    · rw [if_neg hc] at h
      rcases List.mem_cons.mp h with h1 | h2
      · exact Or.inl h1
      · exact Or.inr h2

theorem mem_sortByKey {α : Type} (key : α → Int) (x : α) (l : List α) :
    x ∈ sortByKey key l → x ∈ l := by
  unfold sortByKey
  suffices h : ∀ acc, x ∈ l.foldl (fun acc y => insSorted key y acc) acc → x ∈ acc ∨ x ∈ l by
    intro hx
    rcases h [] hx with h1 | h2
    · simp at h1
    · exact h2
  induction l with
  | nil => intro acc h; exact Or.inl h
  | cons y ys ih =>
    intro acc h
    rcases ih (insSorted key y acc) h with h1 | h2
    · rcases mem_insSorted key y x acc h1 with h3 | h4
      · exact Or.inr (by simp [h3])
      · exact Or.inl h4
    · exact Or.inr (List.mem_cons.mpr (Or.inr h2))

/-- Core monotonicity of the src/portfolio-calculator.js money-market fold:
with non-negative parsed rates and a non-negative start, the running units
never decrease and every logged running-units value is a real number. -/
theorem mmf_fold_mono (l : List MMFRate) :
    ∀ u : ℚ, 0 ≤ u →
    (∀ r ∈ l, ∃ q, JsStr.parseFloatQ r.rate = some q ∧ 0 ≤ q) →
    ∃ u', (l.foldl PortfolioCalc.mmfStep (some u, [])).1 = some u' ∧ u ≤ u' ∧
      nondecOpt u ((l.foldl PortfolioCalc.mmfStep (some u, [])).2.map (·.runningUnits)) := by
  induction l with
  | nil => intro u hu _; exact ⟨u, rfl, le_refl u, trivial⟩
  | cons r l ih =>
    intro u hu hl
    obtain ⟨q, hq, hq0⟩ := hl r (List.mem_cons_self r l)
    have hstep : PortfolioCalc.mmfStep (some u, []) r =
        (some (u + u * (q/100/365)),
         [⟨r.date, r.rate, some (q/100/365), some (u*(q/100/365)), some (u + u*(q/100/365))⟩]) := by
      simp [PortfolioCalc.mmfStep, hq, JsNum.nMul, JsNum.nAdd]
    have hle : u ≤ u + u * (q/100/365) := by
      have h0 : 0 ≤ u * (q/100/365) := mul_nonneg hu (by positivity)
      linarith
    obtain ⟨u', h1, h2, h3⟩ :=
      ih (u + u * (q/100/365)) (le_trans hu hle) (fun r hr => hl r (List.mem_cons_of_mem _ hr))
    have hsplit := foldl_detail_split PortfolioCalc.mmfStep mmfStep_split l
      (some (u + u * (q/100/365)))
      [⟨r.date, r.rate, some (q/100/365), some (u*(q/100/365)), some (u + u*(q/100/365))⟩]
    refine ⟨u', ?_, le_trans hle h2, ?_⟩
    · rw [List.foldl_cons, hstep, hsplit.1, h1]
    · rw [List.foldl_cons, hstep, hsplit.2]
      simp only [List.map_append, List.map_cons, List.map_nil, List.singleton_append]
      exact ⟨u + u * (q/100/365), rfl, hle, h3⟩

/-- Core monotonicity of the src/fund-distribution-parser.js money-market
fold (raw rate used as daily rate): same growth property. -/
theorem mmf_fold_mono_raw (l : List MMFRate) :
    ∀ u : ℚ, 0 ≤ u →
    (∀ r ∈ l, ∃ q, JsStr.parseFloatQ r.rate = some q ∧ 0 ≤ q) →
    ∃ u', (l.foldl ParserVariant.mmfStep (some u, [])).1 = some u' ∧ u ≤ u' ∧
      nondecOpt u ((l.foldl ParserVariant.mmfStep (some u, [])).2.map (·.runningUnits)) := by
  induction l with
  | nil => intro u hu _; exact ⟨u, rfl, le_refl u, trivial⟩
  | cons r l ih =>
    intro u hu hl
    obtain ⟨q, hq, hq0⟩ := hl r (List.mem_cons_self r l)
    have hstep : ParserVariant.mmfStep (some u, []) r =
        (some (u + u * q), [⟨r.date, r.rate, some q, some (u*q), some (u + u*q)⟩]) := by
      simp [ParserVariant.mmfStep, hq, JsNum.nMul, JsNum.nAdd]
    have hle : u ≤ u + u * q := by
      have h0 : 0 ≤ u * q := mul_nonneg hu hq0
      linarith
    obtain ⟨u', h1, h2, h3⟩ :=
      ih (u + u * q) (le_trans hu hle) (fun r hr => hl r (List.mem_cons_of_mem _ hr))
    have hsplit := foldl_detail_split ParserVariant.mmfStep mmfStepRaw_split l
      (some (u + u * q)) [⟨r.date, r.rate, some q, some (u*q), some (u + u*q)⟩]
    refine ⟨u', ?_, le_trans hle h2, ?_⟩
    · rw [List.foldl_cons, hstep, hsplit.1, h1]
    · rw [List.foldl_cons, hstep, hsplit.2]
      simp only [List.map_append, List.map_cons, List.map_nil, List.singleton_append]
      exact ⟨u + u * q, rfl, hle, h3⟩

theorem reinvNAV_pos (points : List (Int × ℚ)) (currentNAV : ℚ) (k : Int)
    (hpts : ∀ p ∈ points, 0 < p.2) (hnav : 0 < currentNAV) :
    0 < PortfolioCalc.reinvestmentNAVOf points currentNAV k := by
  unfold PortfolioCalc.reinvestmentNAVOf
  cases hf : points.find? (fun p => decide (k ≤ p.1 * 1000)) with
  | none => exact hnav
  | some p => exact hpts p (List.mem_of_find?_eq_some hf)

theorem mfStep_split (dk : Str → Int) (points : List (Int × ℚ)) (currentNAV : ℚ)
    (headers : List Str) (af : Str) (x : ℚ) (ds : List MFDetail) (row : List (Str × Str)) :
    (PortfolioCalc.mfStep dk points currentNAV headers af (x, ds) row).1 =
      (PortfolioCalc.mfStep dk points currentNAV headers af (x, []) row).1 ∧
    (PortfolioCalc.mfStep dk points currentNAV headers af (x, ds) row).2 =
      ds ++ (PortfolioCalc.mfStep dk points currentNAV headers af (x, []) row).2 := by
  simp [PortfolioCalc.mfStep]

/-- Core monotonicity of the mutual-fund reinvestment fold: non-negative
distribution amounts, positive NAV points and a positive default NAV never
decrease the running share count. -/
theorem mf_fold_mono (dk : Str → Int) (points : List (Int × ℚ)) (currentNAV : ℚ)
    (headers : List Str) (af : Str)
    (hpts : ∀ p ∈ points, 0 < p.2) (hnav : 0 < currentNAV) (rows : List (List (Str × Str))) :
    ∀ s : ℚ, 0 ≤ s →
    (∀ row ∈ rows, 0 ≤ PortfolioCalc.jsParseOr0 (PortfolioCalc.rowGet row af)) →
    s ≤ (rows.foldl (PortfolioCalc.mfStep dk points currentNAV headers af) (s, [])).1 ∧
    nondecQ s ((rows.foldl (PortfolioCalc.mfStep dk points currentNAV headers af)
      (s, [])).2.map (·.runningShares)) := by
  induction rows with
  | nil => intro s hs _; exact ⟨le_refl s, trivial⟩
  | cons row rows ih =>
    intro s hs hrows
    have hamt : 0 ≤ PortfolioCalc.jsParseOr0 (PortfolioCalc.rowGet row af) :=
      hrows row (List.mem_cons_self row rows)
    set dps := PortfolioCalc.jsParseOr0 (PortfolioCalc.rowGet row af) with hdps
    have hrnav : ∀ rn : ℚ, 0 < rn → s ≤ s + dps * s / rn := by
      intro rn hrn
      have : 0 ≤ dps * s / rn := div_nonneg (mul_nonneg hamt hs) (le_of_lt hrn)
      linarith
    -- the reinvestment NAV actually used in this step
    have hstep : ∃ rn : ℚ, 0 < rn ∧
        PortfolioCalc.mfStep dk points currentNAV headers af (s, []) row =
        (s + dps * s / rn,
         [⟨(PortfolioCalc.findDateField headers).bind (fun df => PortfolioCalc.rowGet row df),
           dps, dps * (s + dps * s / rn), rn, dps * s / rn, s + dps * s / rn⟩]) := by
      unfold PortfolioCalc.mfStep
      cases hdv : (PortfolioCalc.findDateField headers).bind
          (fun df => PortfolioCalc.rowGet row df) with
      | none => exact ⟨currentNAV, hnav, by simp [hdv, hdps]⟩
      | some v =>
        refine ⟨PortfolioCalc.reinvestmentNAVOf points currentNAV (dk v),
          reinvNAV_pos points currentNAV (dk v) hpts hnav, by simp [hdv, hdps]⟩
    obtain ⟨rn, hrn, hstepEq⟩ := hstep
    have hle : s ≤ s + dps * s / rn := hrnav rn hrn
    obtain ⟨h1, h2⟩ := ih (s + dps * s / rn) (le_trans hs hle)
      (fun r hr => hrows r (List.mem_cons_of_mem _ hr))
    have hsplit := foldl_detail_split (PortfolioCalc.mfStep dk points currentNAV headers af)
      (mfStep_split dk points currentNAV headers af) rows (s + dps * s / rn)
      [⟨(PortfolioCalc.findDateField headers).bind (fun df => PortfolioCalc.rowGet row df),
        dps, dps * (s + dps * s / rn), rn, dps * s / rn, s + dps * s / rn⟩]
    constructor
    · rw [List.foldl_cons, hstepEq, hsplit.1]
      exact le_trans hle h1
    · rw [List.foldl_cons, hstepEq, hsplit.2]
      simp only [List.map_append, List.map_cons, List.map_nil, List.singleton_append]
      exact ⟨hle, h2⟩

theorem getLast?_some_mem {α : Type} (l : List α) (h : l ≠ []) :
    ∃ a, l.getLast? = some a ∧ a ∈ l := by
  cases hl : l.getLast? with
  | none => exact absurd (List.getLast?_eq_none_iff.mp hl) h
  | some a =>
    obtain ⟨h2, h3⟩ := List.mem_getLast?_eq_getLast (l := l) (x := a) hl
    exact ⟨a, rfl, h3 ▸ List.getLast_mem h2⟩

theorem findInitialNAV_isSome (points : List (Int × ℚ)) (startKey : Int)
    (h : points ≠ []) : ∃ v, PortfolioCalc.findInitialNAV points startKey = some v := by
  unfold PortfolioCalc.findInitialNAV
  cases hf : points.find? (fun p => decide (startKey ≤ p.1 * 1000)) with
  | some p => exact ⟨p.2, rfl⟩
  | none =>
    have hall : ∀ p ∈ points, p.1 * 1000 ≤ startKey := by
      intro p hp
      have hq := List.find?_eq_none.mp hf p hp
      simp at hq
      omega
    cases hrev : points.reverse with
    | nil => exact absurd (List.reverse_eq_nil_iff.mp hrev) h
    | cons p ps =>
      have hp : p ∈ points := by
        rw [← List.mem_reverse, hrev]
        exact List.mem_cons_self p ps
      refine ⟨p.2, ?_⟩
      simp [List.find?_cons, hall p hp]

/-- C4: with non-negative (parseable) rates/amounts, positive NAVs, and
non-negative initial holdings, every accumulator variant is monotone: the
money-market run (both source variants) and the mutual-fund run never
decrease the running unit/share count at any step, so the final count is at
least the initial one, and the logged running values form a non-decreasing
chain from the initial count. -/
theorem C4_monotone_accumulation
    (dk : Str → Int) (startKey : Int) (rates : List MMFRate) (u0 : ℚ)
    (points : List (Int × ℚ)) (dd : MFDistData) (af : Str) (s0 : ℚ)
    (hu0 : 0 ≤ u0)
    (hrates : ∀ r ∈ rates, ∃ q, JsStr.parseFloatQ r.rate = some q ∧ 0 ≤ q)
    (hrne : rates ≠ [])
    (hs0 : 0 ≤ s0)
    (hpts : ∀ p ∈ points, 0 < p.2)
    (hpne : points ≠ [])
    (haf : PortfolioCalc.findAmountField dd.headers = some af)
    (hamt : ∀ row ∈ dd.distributions,
      0 ≤ PortfolioCalc.jsParseOr0 (PortfolioCalc.rowGet row af)) :
    (∃ u, (PortfolioCalc.calculateMMFPortfolio dk startKey (some rates) u0).unitsOf = some u ∧
      u0 ≤ u ∧
      nondecOpt u0 (((PortfolioCalc.calculateMMFPortfolio dk startKey (some rates) u0).detailsOf).map
        (·.runningUnits))) ∧
    (∃ u, (ParserVariant.calculateMMFPortfolio dk startKey (some rates) u0).unitsOf = some u ∧
      u0 ≤ u ∧
      nondecOpt u0 (((ParserVariant.calculateMMFPortfolio dk startKey (some rates) u0).detailsOf).map
        (·.runningUnits))) ∧
    (∃ cs, (PortfolioCalc.processFund dk startKey (NavEntry.valid points) (some dd) s0).sharesOf =
        some cs ∧ s0 ≤ cs ∧
      nondecQ s0 (((PortfolioCalc.processFund dk startKey (NavEntry.valid points)
        (some dd) s0).detailsOf).map (·.runningShares))) := by
  have hmem : ∀ r ∈ sortByKey (fun r => dk r.date)
      (rates.filter (fun r => decide (startKey ≤ dk r.date))),
      ∃ q, JsStr.parseFloatQ r.rate = some q ∧ 0 ≤ q := by
    intro r hr
    exact hrates r (List.mem_filter.mp (mem_sortByKey _ _ _ hr)).1
  refine ⟨?_, ?_, ?_⟩
  · obtain ⟨u, h1, h2, h3⟩ := mmf_fold_mono _ u0 hu0 hmem
    refine ⟨u, ?_, h2, ?_⟩
    · simp only [PortfolioCalc.calculateMMFPortfolio, if_neg hrne, MMFResult.unitsOf]
      exact h1
    · simp only [PortfolioCalc.calculateMMFPortfolio, if_neg hrne, MMFResult.detailsOf]
      exact h3
  · obtain ⟨u, h1, h2, h3⟩ := mmf_fold_mono_raw _ u0 hu0 hmem
    refine ⟨u, ?_, h2, ?_⟩
    · simp only [ParserVariant.calculateMMFPortfolio, if_neg hrne, MMFResult.unitsOf]
      exact h1
    · simp only [ParserVariant.calculateMMFPortfolio, if_neg hrne, MMFResult.detailsOf]
      exact h3
  · obtain ⟨inav, hinav⟩ := findInitialNAV_isSome points startKey hpne
    obtain ⟨lp, hlp, hlpmem⟩ := getLast?_some_mem points hpne
    have hnav : 0 < lp.2 := hpts lp hlpmem
    by_cases hdd : dd.distributions = []
    · refine ⟨s0, ?_, le_refl s0, ?_⟩
      · simp only [PortfolioCalc.processFund, hinav, hlp, if_pos hdd, FundResult.sharesOf]
      · simp only [PortfolioCalc.processFund, hinav, hlp, if_pos hdd, FundResult.detailsOf]
        exact trivial
    · have hmem2 : ∀ row ∈ PortfolioCalc.mfFilter dk startKey dd.headers dd.distributions,
          0 ≤ PortfolioCalc.jsParseOr0 (PortfolioCalc.rowGet row af) := by
        intro row hr
        simp only [PortfolioCalc.mfFilter] at hr
        exact hamt row (List.mem_filter.mp hr).1
      obtain ⟨hge, hnd⟩ := mf_fold_mono dk points lp.2 dd.headers af hpts hnav
        (PortfolioCalc.mfFilter dk startKey dd.headers dd.distributions) s0 hs0 hmem2
      refine ⟨_, ?_, hge, ?_⟩
      · simp only [PortfolioCalc.processFund, hinav, hlp, if_neg hdd, haf, FundResult.sharesOf]
      · simp only [PortfolioCalc.processFund, hinav, hlp, if_neg hdd, haf, FundResult.detailsOf]
        exact hnd

theorem C4_witness :
    (∃ u, (PortfolioCalc.calculateMMFPortfolio dk0 0 (some [⟨five00S, d9999⟩]) 1000).unitsOf =
        some u ∧ (1000 : ℚ) ≤ u ∧
      nondecOpt 1000 (((PortfolioCalc.calculateMMFPortfolio dk0 0
        (some [⟨five00S, d9999⟩]) 1000).detailsOf).map (·.runningUnits))) ∧
    (∃ u, (ParserVariant.calculateMMFPortfolio dk0 0 (some [⟨five00S, d9999⟩]) 1000).unitsOf =
        some u ∧ (1000 : ℚ) ≤ u ∧
      nondecOpt 1000 (((ParserVariant.calculateMMFPortfolio dk0 0
        (some [⟨five00S, d9999⟩]) 1000).detailsOf).map (·.runningUnits))) ∧
    (∃ cs, (PortfolioCalc.processFund dk0 0 (NavEntry.valid [(10, 99/2)])
        (some ⟨[hdrRecordDate, hdrDistribution], [c2row]⟩) 100).sharesOf = some cs ∧
      (100 : ℚ) ≤ cs ∧
      nondecQ 100 (((PortfolioCalc.processFund dk0 0 (NavEntry.valid [(10, 99/2)])
        (some ⟨[hdrRecordDate, hdrDistribution], [c2row]⟩) 100).detailsOf).map
        (·.runningShares))) :=
  C4_monotone_accumulation dk0 0 [⟨five00S, d9999⟩] 1000 [(10, 99/2)]
    ⟨[hdrRecordDate, hdrDistribution], [c2row]⟩ hdrDistribution 100
    (by norm_num)
    (by
      intro r hr
      simp at hr
      subst hr
      exact ⟨5, by simp +decide [JsStr.parseFloatQ, JsStr.isWs, five00S], by norm_num⟩)
    (by simp)
    (by norm_num)
    (by
      intro p hp
      simp at hp
      subst hp
      norm_num)
    (by simp)
    (by decide)
    (by
      intro row hr
      simp at hr
      subst hr
      simp +decide [PortfolioCalc.jsParseOr0, PortfolioCalc.rowGet, assocGet, c2row,
        JsStr.parseFloatQ, JsStr.isWs, one00])

/-! ## C7 : merge characterisation -/

theorem find?_map_upd {β : Type} (k : Str) (f : β → β) (m : List (Str × β)) :
    (m.map (fun p => if p.1 = k then (p.1, f p.2) else p)).find? (fun p => decide (p.1 = k)) =
      (m.find? (fun p => decide (p.1 = k))).map (fun ne => (ne.1, f ne.2)) := by
  induction m with
  | nil => simp
  | cons p m ih =>
    by_cases hpk : p.1 = k
    · simp [List.find?_cons, hpk]
    · simp only [List.map_cons, if_neg hpk, List.find?_cons]
      simp [hpk, ih]

theorem find?_map_upd_ne {β : Type} (k k' : Str) (f : β → β) (m : List (Str × β))
    (hk : k' ≠ k) :
    (m.map (fun p => if p.1 = k then (p.1, f p.2) else p)).find? (fun p => decide (p.1 = k')) =
      m.find? (fun p => decide (p.1 = k')) := by
  induction m with
  | nil => simp
  | cons p m ih =>
    by_cases hpk : p.1 = k
    · have hp' : ¬ p.1 = k' := by rw [hpk]; exact fun h => hk h.symm
      simp [List.find?_cons, hpk, hp', ih, Ne.symm hk]
    · by_cases hp' : p.1 = k'
      · simp [List.find?_cons, hpk, hp', ih, hk]
      · simp [List.find?_cons, hpk, hp', ih]

theorem assocGet_mergeStep_same (upd : FundEntry → FundEntry → FundEntry)
    (m : List (Str × FundEntry)) (d : Str × FundEntry) :
    assocGet (mergeStep upd m d) d.1 =
      some (match assocGet m d.1 with
        | some ne => upd ne d.2
        | none => d.2) := by
  unfold mergeStep assocGet
  cases hf : m.find? (fun p => decide (p.1 = d.1)) with
  | none =>
    simp only [hf, Option.isSome_none, Bool.false_eq_true, if_false, Option.map_none']
    rw [List.find?_append]
    simp [hf]
  | some ne =>
    simp only [hf, Option.isSome_some, if_true, Option.map_some']
    rw [show (fun p : Str × FundEntry => if p.1 = d.1 then (p.1, upd p.2 d.2) else p) =
      (fun p : Str × FundEntry => if p.1 = d.1 then (p.1, (fun v => upd v d.2) p.2) else p)
      from rfl, find?_map_upd d.1 (fun v => upd v d.2) m, hf]
    simp

theorem assocGet_mergeStep_ne (upd : FundEntry → FundEntry → FundEntry)
    (m : List (Str × FundEntry)) (d : Str × FundEntry) (k : Str) (hk : k ≠ d.1) :
    assocGet (mergeStep upd m d) k = assocGet m k := by
  unfold mergeStep assocGet
  cases hf : m.find? (fun p => decide (p.1 = d.1)) with
  | none =>
    simp only [hf, Option.isSome_none, Bool.false_eq_true, if_false]
    rw [List.find?_append]
    cases hg : m.find? (fun p => decide (p.1 = k)) with
    | some ne => simp [hg]
    | none => simp [hg, Ne.symm hk]
  | some ne =>
    simp only [hf, Option.isSome_some, if_true]
    rw [show (fun p : Str × FundEntry => if p.1 = d.1 then (p.1, upd p.2 d.2) else p) =
      (fun p : Str × FundEntry => if p.1 = d.1 then (p.1, (fun v => upd v d.2) p.2) else p)
      from rfl, find?_map_upd_ne d.1 k (fun v => upd v d.2) m hk]

theorem assocGet_nodup_head (d : Str × FundEntry) (dist : List (Str × FundEntry))
    (hnd : ((d :: dist).map (·.1)).Nodup) : assocGet dist d.1 = none := by
  unfold assocGet
  cases hf : dist.find? (fun p => decide (p.1 = d.1)) with
  | none => rfl
  | some ne =>
    exfalso
    have hmem := List.mem_of_find?_eq_some hf
    have hkey : ne.1 = d.1 := by simpa using List.find?_some hf
    simp only [List.map_cons, List.nodup_cons] at hnd
    exact hnd.1 (hkey ▸ List.mem_map_of_mem (·.1) hmem)

/-- Pointwise characterisation of both `mergeData` fold variants. -/
theorem assocGet_mergeAssoc (upd : FundEntry → FundEntry → FundEntry) :
    ∀ (dist nav : List (Str × FundEntry)) (k : Str), ((dist.map (·.1)).Nodup) →
    assocGet (mergeAssoc upd nav dist) k =
      (match assocGet dist k, assocGet nav k with
       | some de, some ne => some (upd ne de)
       | some de, none => some de
       | none, r => r) := by
  intro dist
  induction dist with
  | nil => intro nav k _; rfl
  | cons d dist ih =>
    intro nav k hnd
    have hnd' : (dist.map (·.1)).Nodup := by
      simp only [List.map_cons, List.nodup_cons] at hnd
      exact hnd.2
    have hstep : mergeAssoc upd nav (d :: dist) = mergeAssoc upd (mergeStep upd nav d) dist := rfl
    rw [hstep, ih (mergeStep upd nav d) k hnd']
    by_cases hk : k = d.1
    · have hdist : assocGet dist k = none := by
        rw [hk]; exact assocGet_nodup_head d dist hnd
      have hsame : assocGet (mergeStep upd nav d) k =
          some (match assocGet nav k with
            | some ne => upd ne d.2
            | none => d.2) := by
        rw [hk]; exact assocGet_mergeStep_same upd nav d
      have hhead : assocGet (d :: dist) k = some d.2 := by
        simp [assocGet, List.find?_cons, hk.symm]
      rw [hdist, hhead, hsame]
      cases hnav : assocGet nav k <;> simp
    · have hhead : assocGet (d :: dist) k = assocGet dist k := by
        simp [assocGet, List.find?_cons, show ¬ d.1 = k from fun h => hk h.symm]
      rw [assocGet_mergeStep_ne upd nav d k hk, hhead]

/-- C7 amended: on a date present in BOTH maps, the merged entry keeps the
NAV-series entry with only its distribution amount (and detail) taken from
the distribution record — the generic NAV-series NAV wins, not the
distribution record NAV; a date present on one side only keeps that side's
entry unchanged (NAV-only entries already carry `distributions = 0` from
construction, distribution-only entries carry the record's own reinvest
NAV). -/
theorem C7_amended_merge_keeps_series_nav (nav dist : List (Str × FundEntry)) (k : Str)
    (hnd : (dist.map (·.1)).Nodup) :
    assocGet (mergeDataService nav dist) k =
      (match assocGet dist k, assocGet nav k with
       | some de, some ne =>
         some ⟨ne.date, ne.NAV, de.distributions, spreadAssoc ne.detail de.detail⟩
       | some de, none => some de
       | none, r => r) ∧
    assocGet (mergeDataProcessor nav dist) k =
      (match assocGet dist k, assocGet nav k with
       | some de, some ne => some ⟨ne.date, ne.NAV, de.distributions, de.detail⟩
       | some de, none => some de
       | none, r => r) := by
  constructor
  · rw [mergeDataService, assocGet_mergeAssoc mergeEntryService dist nav k hnd]
    cases assocGet dist k <;> cases assocGet nav k <;> rfl
  · rw [mergeDataProcessor, assocGet_mergeAssoc mergeEntryProcessor dist nav k hnd]
    cases assocGet dist k <;> cases assocGet nav k <;> rfl

theorem C7_witness :
    assocGet (mergeDataService [(d0102, ⟨d0102, 52, 0, []⟩)]
        [(d0102, ⟨d0102, 99/2, 1, [(DataService.kRegular, 1)]⟩)]) d0102 =
      (match assocGet [(d0102, ⟨d0102, 99/2, 1, [(DataService.kRegular, 1)]⟩)] d0102,
          assocGet [(d0102, ⟨d0102, 52, 0, []⟩)] d0102 with
       | some de, some ne =>
         some ⟨ne.date, ne.NAV, de.distributions, spreadAssoc ne.detail de.detail⟩
       | some de, none => some de
       | none, r => r) ∧
    assocGet (mergeDataProcessor [(d0102, ⟨d0102, 52, 0, []⟩)]
        [(d0102, ⟨d0102, 99/2, 1, [(DataService.kRegular, 1)]⟩)]) d0102 =
      (match assocGet [(d0102, ⟨d0102, 99/2, 1, [(DataService.kRegular, 1)]⟩)] d0102,
          assocGet [(d0102, ⟨d0102, 52, 0, []⟩)] d0102 with
       | some de, some ne => some ⟨ne.date, ne.NAV, de.distributions, de.detail⟩
       | some de, none => some de
       | none, r => r) :=
  C7_amended_merge_keeps_series_nav [(d0102, ⟨d0102, 52, 0, []⟩)]
    [(d0102, ⟨d0102, 99/2, 1, [(DataService.kRegular, 1)]⟩)] d0102 (by simp)

/-- C8 amended: in a mutual-fund block the parser accepts a data line iff its
tab-field count is EXACTLY the stored header count (not "at least"); a
non-matching line leaves the state unchanged and parsing continues with the
next line.  In the fixed-column variant (`processMutualFundDistributions`) a
line is stored iff it has at least 8 fields, and is skipped otherwise. -/
theorem C8_amended_exact_field_count (st : PDState) (line : Str)
    (acc : List (Str × FundEntry)) (l2 : Str)
    (hih : st.isHeader = false) (hcf : st.currentFund = some ancfxSym)
    (h1 : JsStr.trimStr line ≠ [])
    (h2 : JsStr.trimStr line ≠ ancfxSym) (h3 : JsStr.trimStr line ≠ agthxSym)
    (h4 : JsStr.trimStr line ≠ afaxxSym) :
    (ParserVariant.pdLine st line =
      (if (JsStr.splitOnChar '\t' (JsStr.trimStr line)).length = st.headers.length then
        { st with ancfx :=
          st.ancfx ++ [rowZip st.headers (JsStr.splitOnChar '\t' (JsStr.trimStr line))] }
      else st)) ∧
    (8 ≤ (JsStr.splitOnChar '\t' (JsStr.trimStr l2)).length →
      ∃ e, DataService.processMFLine acc l2 =
        assocSet acc (DataService.normalizeDate
          ((JsStr.splitOnChar '\t' (JsStr.trimStr l2)).getD 0 [])) e) ∧
    ((JsStr.splitOnChar '\t' (JsStr.trimStr l2)).length < 8 →
      DataService.processMFLine acc l2 = acc) := by
  refine ⟨?_, ?_, ?_⟩
  · simp only [ParserVariant.pdLine, hih, hcf, if_neg h1, if_neg h2, if_neg h3, if_neg h4]
    simp
  · intro hlen
    simp only [DataService.processMFLine]
    rw [if_pos hlen]
    exact ⟨_, rfl⟩
  · intro hlen
    simp only [DataService.processMFLine, if_neg (by omega : ¬ 8 ≤ (JsStr.splitOnChar '\t'
      (JsStr.trimStr l2)).length)]

def c8state : PDState :=
  ⟨some ancfxSym, false, [(("A")).data, (("B")).data], [(("A")).data, (("B")).data],
    [], [], [], []⟩

theorem C8_witness :
    (ParserVariant.pdLine c8state (("1\t2\t3")).data =
      (if (JsStr.splitOnChar '\t' (JsStr.trimStr (("1\t2\t3")).data)).length =
          c8state.headers.length then
        { c8state with ancfx := c8state.ancfx ++
          [rowZip c8state.headers (JsStr.splitOnChar '\t' (JsStr.trimStr (("1\t2\t3")).data))] }
      else c8state)) ∧
    (8 ≤ (JsStr.splitOnChar '\t' (JsStr.trimStr (("x\ty")).data)).length →
      ∃ e, DataService.processMFLine [] (("x\ty")).data =
        assocSet [] (DataService.normalizeDate
          ((JsStr.splitOnChar '\t' (JsStr.trimStr (("x\ty")).data)).getD 0 [])) e) ∧
    ((JsStr.splitOnChar '\t' (JsStr.trimStr (("x\ty")).data)).length < 8 →
      DataService.processMFLine [] (("x\ty")).data = []) :=
  C8_amended_exact_field_count c8state (("1\t2\t3")).data [] (("x\ty")).data
    (by decide) (by decide) (by decide) (by decide) (by decide) (by decide)

/-! ## C9 : date normalisation -/

theorem splitOnChar_not_mem (sep : Char) (a : Str) (h : sep ∉ a) :
    JsStr.splitOnChar sep a = [a] := by
  induction a with
  | nil => rfl
  | cons c rest ih =>
    have hc : ¬ c = sep := fun hcc => h (hcc ▸ List.mem_cons_self c rest)
    have hr : sep ∉ rest := fun hm => h (List.mem_cons_of_mem c hm)
    simp [JsStr.splitOnChar, hc, ih hr]

theorem splitOnChar_append (sep : Char) (a b : Str) (h : sep ∉ a) :
    JsStr.splitOnChar sep (a ++ sep :: b) = a :: JsStr.splitOnChar sep b := by
  induction a with
  | nil => simp [JsStr.splitOnChar]
  | cons c rest ih =>
    have hc : ¬ c = sep := fun hcc => h (hcc ▸ List.mem_cons_self c rest)
    have hr : sep ∉ rest := fun hm => h (List.mem_cons_of_mem c hm)
    simp only [List.cons_append, JsStr.splitOnChar, if_neg hc]
    simp only [show rest.append (sep :: b) = rest ++ sep :: b from rfl, ih hr]
    rfl

/-- The two-digit decimal rendering of `n % 100` (used to build concrete
`MM`, `DD` and `YY` components). -/
def digitCh (n : ℕ) : Char := Char.ofNat (48 + n % 10)

def pad2 (n : ℕ) : Str := [digitCh (n / 10), digitCh n]

theorem digitCh_ne_slash (n : ℕ) : digitCh n ≠ '/' := by
  have h : n % 10 < 10 := Nat.mod_lt _ (by norm_num)
  have hall : ∀ k < 10, Char.ofNat (48 + k) ≠ '/' := by decide
  exact hall _ h

theorem digitCh_ne_dash (n : ℕ) : digitCh n ≠ '-' := by
  have h : n % 10 < 10 := Nat.mod_lt _ (by norm_num)
  have hall : ∀ k < 10, Char.ofNat (48 + k) ≠ '-' := by decide
  exact hall _ h

theorem slash_not_mem_pad2 (n : ℕ) : '/' ∉ pad2 n := by
  intro h
  rcases List.mem_cons.mp h with h1 | h1
  · exact digitCh_ne_slash (n / 10) h1.symm
  · rcases List.mem_cons.mp h1 with h2 | h2
    · exact digitCh_ne_slash n h2.symm
    · simp at h2

theorem dash_not_mem_pad2 (n : ℕ) : '-' ∉ pad2 n := by
  intro h
  rcases List.mem_cons.mp h with h1 | h1
  · exact digitCh_ne_dash (n / 10) h1.symm
  · rcases List.mem_cons.mp h1 with h2 | h2
    · exact digitCh_ne_dash n h2.symm
    · simp at h2

theorem parse_pad2 : ∀ n < 100, JsStr.parseNatDigits (pad2 n) = some n := by decide

theorem val_pad2 : ∀ n < 100,
    (pad2 n).foldl (fun acc c => acc * 10 + (c.toNat - 48)) 0 = n := by decide

theorem digits_pad2 : ∀ n : ℕ, (pad2 n).all (fun c => c.isDigit) = true := by
  intro n
  have h1 : (n / 10) % 10 < 10 := Nat.mod_lt _ (by norm_num)
  have h2 : n % 10 < 10 := Nat.mod_lt _ (by norm_num)
  have hall : ∀ k < 10, (Char.ofNat (48 + k)).isDigit = true := by decide
  simp [pad2, digitCh, hall _ h1, hall _ h2]

theorem foldl_digits_shift (b : Str) :
    ∀ acc : ℕ, b.foldl (fun acc c => acc * 10 + (c.toNat - 48)) acc =
      acc * 10 ^ b.length + b.foldl (fun acc c => acc * 10 + (c.toNat - 48)) 0 := by
  induction b with
  | nil => intro acc; simp
  | cons c b ih =>
    intro acc
    simp only [List.foldl_cons, List.length_cons]
    rw [ih (acc * 10 + (c.toNat - 48)), ih (0 * 10 + (c.toNat - 48))]
    ring

theorem parse_pad2_append (a b : ℕ) (ha : a < 100) (hb : b < 100) :
    JsStr.parseNatDigits (pad2 a ++ pad2 b) = some (100 * a + b) := by
  unfold JsStr.parseNatDigits
  rw [if_pos]
  · congr 1
    rw [List.foldl_append, foldl_digits_shift (pad2 b), val_pad2 a ha, val_pad2 b hb]
    simp [pad2]
    ring
  · constructor
    · simp [pad2]
    · rw [List.all_append]
      simp [digits_pad2 a, digits_pad2 b]

/-- C9 counterexample: the normalizers mangle the YYYY-MM-DD shape.
`normalizeDate` turns "2024-12-31" into "2024/12/2031" (the day "31" is
"20"-prefixed as if it were a two-digit year), which `parseToDate` reads as
year 2031, month index 2023, day 12 — not the calendar day 12/31/2024; the
fund-data-processor.js `parseDate` re-joins the parts unreordered as
"2024/12/31", which `toDateObject` reads as year 31, month index 2023,
day 12. -/
theorem C9_counterexample :
    DataService.normalizeDate (("2024-12-31")).data = (("2024/12/2031")).data ∧
    DataService.parseToDate (("2024-12-31")).data =
      some ((2031 : ℤ), ((2023 : ℤ), (12 : ℤ))) ∧
    DataService.parseToDate (("12/31/2024")).data =
      some ((2024 : ℤ), ((11 : ℤ), (31 : ℤ))) ∧
    (((2031 : ℤ), ((2023 : ℤ), (12 : ℤ))) ≠ ((2024 : ℤ), ((11 : ℤ), (31 : ℤ)))) ∧
    DataProcessor.parseDate (("2024-12-31")).data = (("2024/12/31")).data ∧
    DataProcessor.toDateObject (("2024/12/31")).data =
      some ((31 : ℤ), ((2023 : ℤ), (12 : ℤ))) ∧
    (((31 : ℤ), ((2023 : ℤ), (12 : ℤ))) ≠ ((2024 : ℤ), ((11 : ℤ), (31 : ℤ)))) := by
  refine ⟨by decide, by decide, by decide, by decide, by decide, by decide, by decide⟩

def slashDate (mS dS yS : Str) : Str := mS ++ '/' :: (dS ++ '/' :: yS)

theorem normalizeDate_slash (mS dS yS : Str)
    (hm : '/' ∉ mS) (hd : '/' ∉ dS) (hy : '/' ∉ yS) :
    DataService.normalizeDate (slashDate mS dS yS) =
      (if yS.length = 2 then slashDate mS dS ('2' :: '0' :: yS)
       else slashDate mS dS yS) := by
  have hc : (slashDate mS dS yS).contains '/' = true := by
    simp [slashDate, List.contains]
  have hsplit : JsStr.splitOnChar '/' (slashDate mS dS yS) = [mS, dS, yS] := by
    unfold slashDate
    rw [splitOnChar_append '/' mS _ hm, splitOnChar_append '/' dS _ hd,
      splitOnChar_not_mem '/' yS hy]
  unfold DataService.normalizeDate
  rw [if_pos (by rw [hc]; simp)]
  simp only [hc, if_true, hsplit]
  by_cases hlen : yS.length = 2
  · rw [if_pos hlen]
    simp [tmplPiece, slashDate, List.set, hlen]
  · rw [if_neg hlen]
    simp [tmplPiece, slashDate, hlen]

theorem pad20_decomp (yS : Str) : '2' :: '0' :: yS = pad2 20 ++ yS := by
  have h2 : digitCh 2 = '2' := by decide
  have h0 : digitCh 20 = '0' := by decide
  simp [pad2, h2, h0]

theorem parseToDate_pad2 (m d y : ℕ) (hm : m < 100) (hd : d < 100) (hy : y < 100) :
    DataService.parseToDate (slashDate (pad2 m) (pad2 d) (pad2 y)) =
      some ((2000 + y : ℤ), (((m : ℤ) - 1), (d : ℤ))) := by
  unfold DataService.parseToDate
  rw [normalizeDate_slash _ _ _ (slash_not_mem_pad2 m) (slash_not_mem_pad2 d)
    (slash_not_mem_pad2 y), if_pos (by simp [pad2])]
  have hy20 : '/' ∉ '2' :: '0' :: pad2 y := by
    intro h
    rcases List.mem_cons.mp h with h1 | h1
    · simp at h1
    · rcases List.mem_cons.mp h1 with h2 | h2
      · simp at h2
      · exact slash_not_mem_pad2 y h2
  have hsplit : JsStr.splitOnChar '/' (slashDate (pad2 m) (pad2 d) ('2' :: '0' :: pad2 y)) =
      [pad2 m, pad2 d, '2' :: '0' :: pad2 y] := by
    unfold slashDate
    rw [splitOnChar_append '/' (pad2 m) _ (slash_not_mem_pad2 m),
      splitOnChar_append '/' (pad2 d) _ (slash_not_mem_pad2 d),
      splitOnChar_not_mem '/' _ hy20]
  rw [hsplit]
  have hp20 : JsStr.parseNatDigits ('2' :: '0' :: pad2 y) = some (2000 + y) := by
    rw [pad20_decomp (pad2 y), parse_pad2_append 20 y (by norm_num) hy]
  simp [parse_pad2 m hm, parse_pad2 d hd, hp20]

theorem parseToDate_pad4 (m d yH yL : ℕ) (hm : m < 100) (hd : d < 100)
    (hyH : yH < 100) (hyL : yL < 100) :
    DataService.normalizeDate (slashDate (pad2 m) (pad2 d) (pad2 yH ++ pad2 yL)) =
      slashDate (pad2 m) (pad2 d) (pad2 yH ++ pad2 yL) ∧
    DataService.parseToDate (slashDate (pad2 m) (pad2 d) (pad2 yH ++ pad2 yL)) =
      some ((100 * yH + yL : ℤ), (((m : ℤ) - 1), (d : ℤ))) := by
  have hy4 : '/' ∉ pad2 yH ++ pad2 yL := by
    intro h
    rcases List.mem_append.mp h with h1 | h1
    · exact slash_not_mem_pad2 yH h1
    · exact slash_not_mem_pad2 yL h1
  have hnorm : DataService.normalizeDate (slashDate (pad2 m) (pad2 d)
      (pad2 yH ++ pad2 yL)) = slashDate (pad2 m) (pad2 d) (pad2 yH ++ pad2 yL) := by
    rw [normalizeDate_slash _ _ _ (slash_not_mem_pad2 m) (slash_not_mem_pad2 d) hy4,
      if_neg (by simp [pad2])]
  refine ⟨hnorm, ?_⟩
  unfold DataService.parseToDate
  rw [hnorm]
  have hsplit : JsStr.splitOnChar '/' (slashDate (pad2 m) (pad2 d) (pad2 yH ++ pad2 yL)) =
      [pad2 m, pad2 d, pad2 yH ++ pad2 yL] := by
    unfold slashDate
    rw [splitOnChar_append '/' (pad2 m) _ (slash_not_mem_pad2 m),
      splitOnChar_append '/' (pad2 d) _ (slash_not_mem_pad2 d),
      splitOnChar_not_mem '/' _ hy4]
  rw [hsplit]
  simp [parse_pad2 m hm, parse_pad2 d hd, parse_pad2_append yH yL hyH hyL]

theorem intercalate_three (a b c : Str) :
    List.intercalate ['/'] [a, b, c] = a ++ '/' :: (b ++ '/' :: c) := by
  simp [List.intercalate, List.intersperse]

theorem slash_not_mem_pad20 (y : ℕ) : '/' ∉ '2' :: '0' :: pad2 y := by
  intro h
  rcases List.mem_cons.mp h with h1 | h1
  · simp at h1
  · rcases List.mem_cons.mp h1 with h2 | h2
    · simp at h2
    · exact slash_not_mem_pad2 y h2

theorem slash_not_mem_pad4 (yH yL : ℕ) : '/' ∉ pad2 yH ++ pad2 yL := by
  intro h
  rcases List.mem_append.mp h with h1 | h1
  · exact slash_not_mem_pad2 yH h1
  · exact slash_not_mem_pad2 yL h1

theorem splitOnChar_slashDate (mS dS yS : Str)
    (hm : '/' ∉ mS) (hd : '/' ∉ dS) (hy : '/' ∉ yS) :
    JsStr.splitOnChar '/' (slashDate mS dS yS) = [mS, dS, yS] := by
  unfold slashDate
  rw [splitOnChar_append '/' mS _ hm, splitOnChar_append '/' dS _ hd,
    splitOnChar_not_mem '/' yS hy]

/-- The fund-data-processor.js `parseDate` on a slash-shaped input: the third
component is "20"-prefixed iff it has exactly two characters, and the parts
are re-joined with '/'. -/
theorem parseDate_slash (mS dS yS : Str)
    (hm : '/' ∉ mS) (hd : '/' ∉ dS) (hy : '/' ∉ yS) :
    DataProcessor.parseDate (slashDate mS dS yS) =
      (if yS.length = 2 then slashDate mS dS ('2' :: '0' :: yS)
       else slashDate mS dS yS) := by
  have hc : (slashDate mS dS yS).contains '/' = true := by
    simp [slashDate, List.contains]
  unfold DataProcessor.parseDate
  rw [if_pos hc]
  simp only [splitOnChar_slashDate mS dS yS hm hd hy]
  by_cases hlen : yS.length = 2
  · rw [if_pos hlen]
    simp [hlen, List.set, intercalate_three, slashDate]
  · rw [if_neg hlen]
    simp [hlen, intercalate_three, slashDate]

theorem toDateObject_pad2 (m d y : ℕ) (hm : m < 100) (hd : d < 100) (hy : y < 100) :
    DataProcessor.toDateObject (slashDate (pad2 m) (pad2 d) ('2' :: '0' :: pad2 y)) =
      some ((2000 + y : ℤ), (((m : ℤ) - 1), (d : ℤ))) := by
  unfold DataProcessor.toDateObject
  rw [splitOnChar_slashDate _ _ _ (slash_not_mem_pad2 m) (slash_not_mem_pad2 d)
    (slash_not_mem_pad20 y)]
  have hp20 : JsStr.parseNatDigits ('2' :: '0' :: pad2 y) = some (2000 + y) := by
    rw [pad20_decomp (pad2 y), parse_pad2_append 20 y (by norm_num) hy]
  simp [parse_pad2 m hm, parse_pad2 d hd, hp20]

theorem toDateObject_pad4 (m d yH yL : ℕ) (hm : m < 100) (hd : d < 100)
    (hyH : yH < 100) (hyL : yL < 100) :
    DataProcessor.toDateObject (slashDate (pad2 m) (pad2 d) (pad2 yH ++ pad2 yL)) =
      some ((100 * yH + yL : ℤ), (((m : ℤ) - 1), (d : ℤ))) := by
  unfold DataProcessor.toDateObject
  rw [splitOnChar_slashDate _ _ _ (slash_not_mem_pad2 m) (slash_not_mem_pad2 d)
    (slash_not_mem_pad4 yH yL)]
  simp [parse_pad2 m hm, parse_pad2 d hd, parse_pad2_append yH yL hyH hyL]

/-- C9 amended: BOTH date normalizers handle the slash shapes correctly — a
MM/DD/YY input (two-digit components) is rewritten to MM/DD/20YY by
`normalizeDate` (fund-data-service.js) and by `parseDate`
(fund-data-processor.js), and read back by the respective downstream readers
(`parseToDate`, `toDateObject`) as the calendar day (2000+YY, MM, DD); a
MM/DD/YYYY input passes through both unchanged and is read back as
(YYYY, MM, DD); a string containing neither '/' nor '-' passes through both
unchanged; and on calendar-range triples the modelled `Date` value orders
exactly lexicographically, so canonical dates from the slash shapes compare
correctly under <, =, > in either variant.  (The YYYY-MM-DD shape, by
contrast, is mangled — see the counterexample.) -/
theorem C9_amended_date_normalizer (m d y yH yL : ℕ) (s : Str)
    (y1 mo1 d1 y2 mo2 d2 : ℤ)
    (hm : m < 100) (hd : d < 100) (hy : y < 100) (hyH : yH < 100) (hyL : yL < 100)
    (hs1 : '/' ∉ s) (hs2 : '-' ∉ s)
    (hr1 : 0 ≤ mo1) (hr2 : mo1 < 12) (hr3 : 1 ≤ d1) (hr4 : d1 ≤ 31)
    (hr5 : 0 ≤ mo2) (hr6 : mo2 < 12) (hr7 : 1 ≤ d2) (hr8 : d2 ≤ 31) :
    DataService.normalizeDate (slashDate (pad2 m) (pad2 d) (pad2 y)) =
      slashDate (pad2 m) (pad2 d) ('2' :: '0' :: pad2 y) ∧
    DataService.parseToDate (slashDate (pad2 m) (pad2 d) (pad2 y)) =
      some ((2000 + y : ℤ), (((m : ℤ) - 1), (d : ℤ))) ∧
    DataService.normalizeDate (slashDate (pad2 m) (pad2 d) (pad2 yH ++ pad2 yL)) =
      slashDate (pad2 m) (pad2 d) (pad2 yH ++ pad2 yL) ∧
    DataService.parseToDate (slashDate (pad2 m) (pad2 d) (pad2 yH ++ pad2 yL)) =
      some ((100 * yH + yL : ℤ), (((m : ℤ) - 1), (d : ℤ))) ∧
    DataProcessor.parseDate (slashDate (pad2 m) (pad2 d) (pad2 y)) =
      slashDate (pad2 m) (pad2 d) ('2' :: '0' :: pad2 y) ∧
    DataProcessor.toDateObject
        (DataProcessor.parseDate (slashDate (pad2 m) (pad2 d) (pad2 y))) =
      some ((2000 + y : ℤ), (((m : ℤ) - 1), (d : ℤ))) ∧
    DataProcessor.parseDate (slashDate (pad2 m) (pad2 d) (pad2 yH ++ pad2 yL)) =
      slashDate (pad2 m) (pad2 d) (pad2 yH ++ pad2 yL) ∧
    DataProcessor.toDateObject
        (DataProcessor.parseDate (slashDate (pad2 m) (pad2 d) (pad2 yH ++ pad2 yL))) =
      some ((100 * yH + yL : ℤ), (((m : ℤ) - 1), (d : ℤ))) ∧
    DataService.normalizeDate s = s ∧
    DataProcessor.parseDate s = s ∧
    (DataService.dateVal (y1, (mo1, d1)) < DataService.dateVal (y2, (mo2, d2)) ↔
      (y1 < y2 ∨ (y1 = y2 ∧ (mo1 < mo2 ∨ (mo1 = mo2 ∧ d1 < d2))))) := by
  have hcs : s.contains '/' = false := by simp [List.contains, hs1]
  have hcd : s.contains '-' = false := by simp [List.contains, hs2]
  have hpd2 : DataProcessor.parseDate (slashDate (pad2 m) (pad2 d) (pad2 y)) =
      slashDate (pad2 m) (pad2 d) ('2' :: '0' :: pad2 y) := by
    rw [parseDate_slash _ _ _ (slash_not_mem_pad2 m) (slash_not_mem_pad2 d)
      (slash_not_mem_pad2 y), if_pos (by simp [pad2])]
  have hpd4 : DataProcessor.parseDate (slashDate (pad2 m) (pad2 d) (pad2 yH ++ pad2 yL)) =
      slashDate (pad2 m) (pad2 d) (pad2 yH ++ pad2 yL) := by
    rw [parseDate_slash _ _ _ (slash_not_mem_pad2 m) (slash_not_mem_pad2 d)
      (slash_not_mem_pad4 yH yL), if_neg (by simp [pad2])]
  refine ⟨?_, parseToDate_pad2 m d y hm hd hy, (parseToDate_pad4 m d yH yL hm hd hyH hyL).1,
    (parseToDate_pad4 m d yH yL hm hd hyH hyL).2,
    hpd2, by rw [hpd2]; exact toDateObject_pad2 m d y hm hd hy,
    hpd4, by rw [hpd4]; exact toDateObject_pad4 m d yH yL hm hd hyH hyL,
    ?_, ?_, ?_⟩
  · rw [normalizeDate_slash _ _ _ (slash_not_mem_pad2 m) (slash_not_mem_pad2 d)
      (slash_not_mem_pad2 y), if_pos (by simp [pad2])]
  · unfold DataService.normalizeDate
    rw [if_neg (by rw [hcs, hcd]; simp)]
  · unfold DataProcessor.parseDate
    rw [if_neg (by rw [hcs]; simp), if_neg (by rw [hcd]; simp)]
  · simp only [DataService.dateVal]
    constructor
    · intro h
      omega
    · intro h
      omega

theorem C9_witness :
    DataService.normalizeDate (slashDate (pad2 12) (pad2 31) (pad2 24)) =
      slashDate (pad2 12) (pad2 31) ('2' :: '0' :: pad2 24) ∧
    DataService.parseToDate (slashDate (pad2 12) (pad2 31) (pad2 24)) =
      some ((2000 + 24 : ℤ), (((12 : ℤ) - 1), (31 : ℤ))) ∧
    DataService.normalizeDate (slashDate (pad2 12) (pad2 31) (pad2 20 ++ pad2 24)) =
      slashDate (pad2 12) (pad2 31) (pad2 20 ++ pad2 24) ∧
    DataService.parseToDate (slashDate (pad2 12) (pad2 31) (pad2 20 ++ pad2 24)) =
      some ((100 * 20 + 24 : ℤ), (((12 : ℤ) - 1), (31 : ℤ))) ∧
    DataProcessor.parseDate (slashDate (pad2 12) (pad2 31) (pad2 24)) =
      slashDate (pad2 12) (pad2 31) ('2' :: '0' :: pad2 24) ∧
    DataProcessor.toDateObject
        (DataProcessor.parseDate (slashDate (pad2 12) (pad2 31) (pad2 24))) =
      some ((2000 + 24 : ℤ), (((12 : ℤ) - 1), (31 : ℤ))) ∧
    DataProcessor.parseDate (slashDate (pad2 12) (pad2 31) (pad2 20 ++ pad2 24)) =
      slashDate (pad2 12) (pad2 31) (pad2 20 ++ pad2 24) ∧
    DataProcessor.toDateObject
        (DataProcessor.parseDate (slashDate (pad2 12) (pad2 31) (pad2 20 ++ pad2 24))) =
      some ((100 * 20 + 24 : ℤ), (((12 : ℤ) - 1), (31 : ℤ))) ∧
    DataService.normalizeDate (("foo")).data = (("foo")).data ∧
    DataProcessor.parseDate (("foo")).data = (("foo")).data ∧
    (DataService.dateVal (2024, (10, 5)) < DataService.dateVal (2024, (11, 1)) ↔
      ((2024 : ℤ) < 2024 ∨ ((2024 : ℤ) = 2024 ∧ ((10 : ℤ) < 11 ∨ ((10 : ℤ) = 11 ∧ (5 : ℤ) < 1))))) :=
  C9_amended_date_normalizer 12 31 24 20 24 (("foo")).data 2024 10 5 2024 11 1
    (by norm_num) (by norm_num) (by norm_num) (by norm_num) (by norm_num)
    (by decide) (by decide)
    (by norm_num) (by norm_num) (by norm_num) (by norm_num)
    (by norm_num) (by norm_num) (by norm_num) (by norm_num)
